import Mathlib

/-!
Verification development for the dispatcher repository's DataTracker
(src/dispatcher/data_tracker.py): a shallow embedding of the tracker's
state and of its operations, followed by theorems about the behaviour
specified for it.

Modelling conventions, stated once here:
* Python integers are `Int` (they are unbounded in the source).
* Python dicts keyed by work id are association lists together with
  `alookup`, `aerase` and `aset`; the tracker never iterates a dict in
  insertion order, so this is faithful.
* The heapq binary min-heap of `(issued_at, work_id)` tuples is modelled by
  its contract: a list kept sorted under the lexicographic tuple order
  `heapLe`, where push is ordered insertion and the head is the minimum.
* Files are modelled at line granularity: a file is the list of its line
  contents (without the terminating newline), every stored line being
  newline-terminated, and byte offsets are computed by `offAt`/`fileBytes`
  from the UTF-8 sizes, matching the binary-mode offsets of the source.
* Wall-clock readings of time.time() are passed in as an explicit `now`
  parameter of each operation.
-/

set_option linter.unusedVariables false

namespace Dispatcher

/-- Byte length of one stored line of a newline-terminated text file: the
UTF-8 size of the line content plus one byte for the newline. -/
def lineBytes (l : String) : Int := (l.utf8ByteSize : Int) + 1

/-- Byte offset of the start of line `k`, which is also the position the
binary-mode tell reports after reading `k` lines. -/
def offAt (lines : List String) (k : Nat) : Int := ((lines.take k).map lineBytes).sum

/-- Total byte size of a file given as its list of lines. -/
def fileBytes (lines : List String) : Int := (lines.map lineBytes).sum

/-- Line index reached by seeking to byte offset `off`: the number of whole
lines lying entirely before `off`. At a line boundary this is exactly the
index of the line starting there, matching the binary-mode seek used by the
source on offsets it previously obtained from tell. -/
def seekIdx (lines : List String) (off : Int) : Nat :=
  match lines with
  | [] => 0
  | l :: rest => if lineBytes l ≤ off then seekIdx rest (off - lineBytes l) + 1 else 0

/-- Effect on the reader position of calling readline `n` times on a file
with `len` lines: each call advances by one line until end of file, where
readline returns the empty string and moves nothing. -/
def consumeLines (len : Nat) : Nat → Nat → Nat
  | 0, pos => pos
  | Nat.succ m, pos => consumeLines len m (if pos < len then pos + 1 else pos)

/-- The list of integers `0, 1, ..., n-1` (empty when `n ≤ 0`). -/
def intRange (n : Int) : List Int := (List.range n.toNat).map (fun (i : Nat) => (i : Int))

/-- The list `a, a+1, ..., a+n-1`. -/
def intRangeFrom (a : Int) (n : Nat) : List Int :=
  (List.range n).map (fun (i : Nat) => a + (i : Int))

/-- Lookup in an association list modelling a Python dict keyed by work id. -/
def alookup {α : Type} (m : List (Int × α)) (k : Int) : Option α :=
  match m with
  | [] => none
  | (k2, v) :: rest => if k = k2 then some v else alookup rest k

/-- Removal of a key from the modelled dict, as Python del or dict.pop. -/
def aerase {α : Type} (m : List (Int × α)) (k : Int) : List (Int × α) :=
  m.filter (fun p => p.1 != k)

/-- Insertion or update of a key, as a Python dict assignment. -/
def aset {α : Type} (m : List (Int × α)) (k : Int) (v : α) : List (Int × α) :=
  (k, v) :: aerase m k

/-- The key set of the modelled dict. -/
def akeys {α : Type} (m : List (Int × α)) : List Int := m.map Prod.fst

/-- Ordering of heap entries `(issued_at, work_id)`: the lexicographic order
Python applies when heapq compares tuples, so ties in the timestamp are
broken by ascending work id. -/
def heapLe (a b : Int × Int) : Prop := a.1 < b.1 ∨ (a.1 = b.1 ∧ a.2 ≤ b.2)

instance : DecidableRel heapLe := fun a b =>
  decidable_of_iff (a.1 < b.1 ∨ (a.1 = b.1 ∧ a.2 ≤ b.2)) Iff.rfl

instance : IsTotal (Int × Int) heapLe := by
  refine ⟨fun a b => ?_⟩
  unfold heapLe
  rcases lt_trichotomy a.1 b.1 with h | h | h
  · exact Or.inl (Or.inl h)
  · rcases le_total a.2 b.2 with h2 | h2
    · exact Or.inl (Or.inr ⟨h, h2⟩)
    · exact Or.inr (Or.inr ⟨h.symm, h2⟩)
  · exact Or.inr (Or.inl h)

instance : IsTrans (Int × Int) heapLe := by
  refine ⟨fun a b c hab hbc => ?_⟩
  unfold heapLe at *
  rcases hab with h | ⟨h1, h2⟩ <;> rcases hbc with g | ⟨g1, g2⟩
  · exact Or.inl (h.trans g)
  · exact Or.inl (g1 ▸ h)
  · exact Or.inl (h1 ▸ g)
  · exact Or.inr ⟨h1.trans g1, h2.trans g2⟩

/-- Push onto the modelled heap: ordered insertion keeps the list sorted, so
the head stays the lexicographic minimum exactly as heapq guarantees. -/
def heapPush (h : List (Int × Int)) (x : Int × Int) : List (Int × Int) :=
  List.orderedInsert heapLe x h

/-- The characters Python str.isspace treats as whitespace, which are
exactly the characters str.strip removes: the ASCII whitespace controls
0x09 through 0x0d, the file, group, record and unit separators 0x1c
through 0x1f, the space, next line 0x85, no-break space 0xa0, Ogham space
mark 0x1680, the en-quad through hair-space range 0x2000 through 0x200a,
the line and paragraph separators 0x2028 and 0x2029, narrow no-break
space 0x202f, medium mathematical space 0x205f, and ideographic space
0x3000 — the full set enumerated from CPython. -/
def isPySpace (c : Char) : Bool :=
  (9 ≤ c.toNat && c.toNat ≤ 13) || (28 ≤ c.toNat && c.toNat ≤ 31) ||
  c.toNat == 32 || c.toNat == 133 || c.toNat == 160 || c.toNat == 5760 ||
  (8192 ≤ c.toNat && c.toNat ≤ 8202) || c.toNat == 8232 || c.toNat == 8233 ||
  c.toNat == 8239 || c.toNat == 8287 || c.toNat == 12288

/-- Python str.strip with no argument: drop leading and trailing whitespace. -/
def pyStrip (s : String) : String :=
  String.mk (((s.data.dropWhile isPySpace).reverse.dropWhile isPySpace).reverse)

/-- Lowercase hexadecimal digit, as json.dumps emits. -/
def hexDigit (n : Nat) : Char := if n < 10 then Char.ofNat (48 + n) else Char.ofNat (87 + n)

/-- Four lowercase hexadecimal digits. -/
def hex4 (n : Nat) : String :=
  String.mk [hexDigit (n / 4096 % 16), hexDigit (n / 256 % 16), hexDigit (n / 16 % 16), hexDigit (n % 16)]

/-- Escaping of one character as json.dumps with its default ensure_ascii
does: the two mandatory escapes, the short control escapes, printable ASCII
verbatim, and every other character as a \u sequence, using a surrogate
pair beyond the basic plane. -/
def jsonEscapeChar (c : Char) : String :=
  if c = '"' then "\\\""
  else if c = '\\' then "\\\\"
  else if c = '\n' then "\\n"
  else if c = '\x0d' then "\\r"
  else if c = '\t' then "\\t"
  else if c = '\x08' then "\\b"
  else if c = '\x0c' then "\\f"
  else if 32 ≤ c.toNat ∧ c.toNat ≤ 126 then String.mk [c]
  else if c.toNat < 65536 then "\\u" ++ hex4 c.toNat
  else "\\u" ++ hex4 (55296 + (c.toNat - 65536) / 1024) ++ "\\u" ++ hex4 (56320 + (c.toNat - 65536) % 1024)

/-- json.dumps of a Python str value. -/
def jsonDumpsString (s : String) : String :=
  "\"" ++ String.join (s.data.map jsonEscapeChar) ++ "\""

/-- The single-line JSON tombstone string json.dumps produces from the dict
literal built in get_work_batch for an item that exceeded max_retries. -/
def tombstoneJson (workId : Int) (content : String) : String :=
  "\x7b\"__ERROR__\": \x7b\"error\": \"max_retries_exceeded\", \"work_id\": " ++
    toString workId ++ ", \"original_content\": " ++
    jsonDumpsString (pyStrip content) ++ "\x7d\x7d"

/-- Parsed contents of the checkpoint file. A file that failed to parse acts
as the empty dict, and the dict.get defaults of _load_checkpoint turn missing
keys into `defaultCheckpoint` below. -/
structure Checkpoint where
  lastProcessedWorkId : Int
  inputOffset : Int
  outputOffset : Int
deriving DecidableEq

/-- The values _load_checkpoint's dict.get calls supply for missing keys. -/
def defaultCheckpoint : Checkpoint := ⟨-1, 0, 0⟩

/-- Value stored in the issued map: the source's tuple of content,
input_offset and retry_count. -/
structure WorkInfo where
  content : String
  inputOffset : Int
  retryCount : Int
deriving DecidableEq

/-- The DataTracker state together with the files it owns.

The configuration fields mirror the constructor arguments; the counters and
tables mirror the instance attributes.  `inLines`/`inPos` are the input file
and the reader's position in lines; `out` is the output file, each written
line tagged (ghost information, not present in the physical file) with the
work id it was flushed for; `checkpointFile` is the on-disk checkpoint,
where `none` is an absent or empty file, `some none` a non-empty file that
does not parse as JSON, and `some (some cp)` a parsed one. -/
structure DataTracker where
  workTimeout : Int
  checkpointInterval : Int
  maxRetries : Int
  lastProcessedWorkId : Int
  nextWorkId : Int
  inputOffset : Int
  lastCheckpointTime : Int
  expiredReissues : Int
  issued : List (Int × WorkInfo)
  issuedHeap : List (Int × Int)
  pendingWrite : List (Int × String)
  inLines : List String
  inPos : Nat
  out : List (Int × String)
  checkpointFile : Option (Option Checkpoint)
deriving DecidableEq

/-- State right after the attribute assignments of the constructor, before
_load_checkpoint runs: fresh counters, empty tables, input reader at the
start, output writer appending after the pre-existing output lines (tagged
by their position), and the pre-existing checkpoint file untouched. -/
def initState (workTimeout checkpointInterval maxRetries : Int)
    (inL outL : List String) (cpf : Option (Option Checkpoint)) (t0 : Int) : DataTracker :=
  { workTimeout := workTimeout
    checkpointInterval := checkpointInterval
    maxRetries := maxRetries
    lastProcessedWorkId := -1
    nextWorkId := 0
    inputOffset := 0
    lastCheckpointTime := t0
    expiredReissues := 0
    issued := []
    issuedHeap := []
    pendingWrite := []
    inLines := inL
    inPos := 0
    out := outL.enum.map (fun p => ((p.1 : Int), p.2))
    checkpointFile := cpf }

/-- _load_checkpoint.  With an existing non-empty checkpoint file it loads
the three counters (a parse failure degrades to the empty dict, hence to the
dict.get defaults), seeks the input reader to input_offset and the output
file to output_offset, counts the output lines beyond output_offset, makes
the input reader consume that many lines, and advances the last processed id
by that count; without a checkpoint it starts fresh. -/
def loadCheckpoint (s : DataTracker) : DataTracker :=
  match s.checkpointFile with
  | some parsed =>
    let cp := parsed.getD defaultCheckpoint
    let inIdx := seekIdx s.inLines cp.inputOffset
    let outIdx := seekIdx (s.out.map Prod.snd) cp.outputOffset
    let extraCount := s.out.length - outIdx
    { s with lastProcessedWorkId := cp.lastProcessedWorkId + (extraCount : Int)
             nextWorkId := cp.lastProcessedWorkId + (extraCount : Int) + 1
             inputOffset := cp.inputOffset
             inPos := consumeLines s.inLines.length extraCount inIdx }
  | none =>
    { s with lastProcessedWorkId := -1, nextWorkId := 0 }

/-- The constructor: attribute assignments followed by _load_checkpoint. -/
def mkTracker (workTimeout checkpointInterval maxRetries : Int)
    (inL outL : List String) (cpf : Option (Option Checkpoint)) (t0 : Int) : DataTracker :=
  loadCheckpoint (initState workTimeout checkpointInterval maxRetries inL outL cpf t0)

/-- A tracker started on a fresh directory: no checkpoint, empty output. -/
def freshTracker (workTimeout checkpointInterval maxRetries : Int)
    (inL : List String) (t0 : Int) : DataTracker :=
  mkTracker workTimeout checkpointInterval maxRetries inL [] none t0

/-- all_work_complete: the input file has no bytes left past the reader's
position and the pending-writes dict is empty. -/
def allWorkComplete (s : DataTracker) : Bool :=
  (fileBytes s.inLines - offAt s.inLines s.inPos == 0) && (s.pendingWrite.length == 0)

/-- _track_issued_work.  Fresh work allocates the next work id and records
the item with retry count zero; reissued work bumps the retry count and the
reissue counter.  Both push `(when, work_id)` onto the heap.  The source
asserts that a reissued id is in the issued map, so the fallthrough branch
is unreachable for its callers. -/
def trackIssuedWork (s : DataTracker) (when : Int) (content : String) (inputOffset : Int)
    (workIdOpt : Option Int) : (Int × String) × DataTracker :=
  match workIdOpt with
  | none =>
    let workId := s.nextWorkId
    ((workId, content),
      { s with nextWorkId := workId + 1
               issued := aset s.issued workId ⟨content, inputOffset, 0⟩
               issuedHeap := heapPush s.issuedHeap (when, workId) })
  | some workId =>
    match alookup s.issued workId with
    | some info =>
      ((workId, content),
        { s with expiredReissues := s.expiredReissues + 1
                 issued := aset s.issued workId ⟨info.content, info.inputOffset, info.retryCount + 1⟩
                 issuedHeap := heapPush s.issuedHeap (when, workId) })
    | none =>
      ((workId, content), { s with issuedHeap := heapPush s.issuedHeap (when, workId) })

/-- One entry of the completion loop of _complete_work_batch: duplicates
(id already written, or already pending) and unknown ids (never issued) are
discarded with a warning; otherwise the result is stored in pending-writes. -/
def completeOne (s : DataTracker) (item : Int × String) : DataTracker :=
  if item.1 ≤ s.lastProcessedWorkId ∨ (alookup s.pendingWrite item.1).isSome then s
  else if (alookup s.issued item.1).isNone then s
  else { s with pendingWrite := aset s.pendingWrite item.1 item.2 }

theorem alookup_cons {α : Type} (p : Int × α) (rest : List (Int × α)) (k : Int) :
    alookup (p :: rest) k = if k = p.1 then some p.2 else alookup rest k := rfl

theorem aerase_length_lt {α : Type} {m : List (Int × α)} {k : Int} {v : α}
    (h : alookup m k = some v) : (aerase m k).length < m.length := by
  induction m with
  | nil => simp [alookup] at h
  | cons p rest ih =>
    simp only [aerase, List.filter_cons]
    by_cases hk : k = p.1
    · have hb : (p.1 != k) = false := by simp [hk]
      rw [hb]
      simp only [Bool.false_eq_true, if_false]
      exact Nat.lt_succ_of_le (List.length_filter_le _ _)
    · rw [alookup_cons, if_neg hk] at h
      have hb : (p.1 != k) = true := by
        simp only [bne_iff_ne, ne_eq]
        exact fun e => hk e.symm
      rw [hb]
      simp only [if_true, List.length_cons]
      exact Nat.succ_lt_succ (ih h)

/-- Loop of _flush_pending_writes: starting from the id right after the last
processed one, as long as the pending-writes dict holds that id, pop its
result, advance the last processed id, move the tracker's input offset to
the one recorded for the id in the issued map, drop the id from the issued
map, and collect the result line into the write buffer.  The buffer entry is
tagged with the id it was flushed for (ghost information).  Were the issued
map to miss the id the source would raise KeyError; the model keeps the
previous offset in that branch, which the tracker invariant proves
unreachable. -/
def flushLoop (s : DataTracker) (acc : List (Int × String)) :
    DataTracker × List (Int × String) :=
  match h : alookup s.pendingWrite (s.lastProcessedWorkId + 1) with
  | none => (s, acc)
  | some result =>
    let nextId := s.lastProcessedWorkId + 1
    let newOffset := match alookup s.issued nextId with
      | some info => info.inputOffset
      | none => s.inputOffset
    flushLoop
      { s with pendingWrite := aerase s.pendingWrite nextId
               lastProcessedWorkId := nextId
               inputOffset := newOffset
               issued := aerase s.issued nextId }
      (acc ++ [(nextId, result)])
termination_by s.pendingWrite.length
decreasing_by
  simpa [aerase] using aerase_length_lt h

/-- _flush_pending_writes: run the loop, then append the collected buffer to
the output file in one write. -/
def flushPendingWrites (s : DataTracker) : DataTracker :=
  let r := flushLoop s []
  { r.1 with out := r.1.out ++ r.2 }

/-- Current byte length of the output file, which is what the append-mode
tell of the source reports. -/
def outBytes (out : List (Int × String)) : Int := ((out.map Prod.snd).map lineBytes).sum

/-- _write_checkpoint: atomically replace the checkpoint file with the three
counters, the output offset being the output writer's current position. -/
def writeCheckpoint (s : DataTracker) : DataTracker :=
  { s with checkpointFile := some (some ⟨s.lastProcessedWorkId, s.inputOffset, outBytes s.out⟩) }

/-- _complete_work_batch: filter each completion through the duplicate and
unknown checks, flush the contiguous prefix, then write a checkpoint when
the checkpoint interval has elapsed. -/
def internalCompleteWorkBatch (s : DataTracker) (now : Int)
    (batch : List (Int × String)) : DataTracker :=
  let s1 := batch.foldl completeOne s
  let s2 := flushPendingWrites s1
  if s2.checkpointInterval ≤ now - s2.lastCheckpointTime then
    { writeCheckpoint s2 with lastCheckpointTime := now }
  else s2

/-- complete_work_batch: the public entry point takes the state lock and
calls the internal one; the lock disappears in this sequential model. -/
def completeWorkBatch (s : DataTracker) (now : Int)
    (batch : List (Int × String)) : DataTracker :=
  internalCompleteWorkBatch s now batch

theorem completeOne_issuedHeap (s : DataTracker) (item : Int × String) :
    (completeOne s item).issuedHeap = s.issuedHeap := by
  unfold completeOne
  split <;> try rfl
  split <;> rfl

theorem foldl_completeOne_issuedHeap (batch : List (Int × String)) (s : DataTracker) :
    (batch.foldl completeOne s).issuedHeap = s.issuedHeap := by
  induction batch generalizing s with
  | nil => rfl
  | cons b rest ih => rw [List.foldl_cons, ih, completeOne_issuedHeap]

theorem flushLoop_issuedHeap (s : DataTracker) (acc : List (Int × String)) :
    (flushLoop s acc).1.issuedHeap = s.issuedHeap := by
  induction s, acc using flushLoop.induct with
  | case1 s acc h => rw [flushLoop, h]
  | case2 s acc result h nextId newOffset ih =>
    rw [flushLoop, h]
    exact ih

theorem internalCompleteWorkBatch_issuedHeap (s : DataTracker) (now : Int)
    (batch : List (Int × String)) :
    (internalCompleteWorkBatch s now batch).issuedHeap = s.issuedHeap := by
  simp only [internalCompleteWorkBatch, flushPendingWrites]
  split <;> simp [writeCheckpoint, flushLoop_issuedHeap, foldl_completeOne_issuedHeap]

theorem trackIssuedWork_issuedHeap_length (s : DataTracker) (when : Int) (content : String)
    (inputOffset : Int) (workIdOpt : Option Int) :
    (trackIssuedWork s when content inputOffset workIdOpt).2.issuedHeap.length =
      s.issuedHeap.length + 1 := by
  cases workIdOpt with
  | none => simp [trackIssuedWork, heapPush, List.orderedInsert_length]
  | some w =>
    cases h : alookup s.issued w <;>
      simp [trackIssuedWork, heapPush, h, List.orderedInsert_length]

/-- Reissue pass of get_work_batch.  While the batch is not full and the
heap is non-empty, inspect the minimal entry: stale entries (id written or
pending) are popped and dropped; an unexpired live entry stops the pass; an
expired one is popped and either tombstoned through the internal completion
path (when the retry cap is set and reached) or reissued through
_track_issued_work and added to the batch. -/
def reissueLoop (s : DataTracker) (now : Int) (batchSize : Nat)
    (batch : List (Int × String)) : DataTracker × List (Int × String) :=
  if h1 : batch.length < batchSize then
    match h2 : s.issuedHeap with
    | [] => (s, batch)
    | (ts, workId) :: rest =>
      if h3 : (alookup s.issued workId).isNone ∨ (alookup s.pendingWrite workId).isSome then
        reissueLoop { s with issuedHeap := rest } now batchSize batch
      else if h4 : now - s.workTimeout > ts then
        match h5 : alookup s.issued workId with
        | some info =>
          if h6 : s.maxRetries ≠ -1 ∧ s.maxRetries ≤ info.retryCount then
            reissueLoop
              (internalCompleteWorkBatch { s with issuedHeap := rest } now
                [(workId, tombstoneJson workId info.content)])
              now batchSize batch
          else
            let t := trackIssuedWork { s with issuedHeap := rest } now info.content
              info.inputOffset (some workId)
            reissueLoop t.2 now batchSize (batch ++ [t.1])
        | none => (s, batch)
      else (s, batch)
  else (s, batch)
termination_by s.issuedHeap.length + (batchSize - batch.length)
decreasing_by
  · simp only [h2, List.length_cons]
    omega
  · rw [internalCompleteWorkBatch_issuedHeap]
    simp only [h2, List.length_cons]
    omega
  · rw [trackIssuedWork_issuedHeap_length]
    simp only [h2, List.length_cons, List.length_append, List.length_singleton]
    omega

/-- Fresh-read pass of get_work_batch: while the batch is not full, read one
line; at end of file stop, otherwise record the content (the line stripped
of its newline), the reader position after the read, and issue it as new
work. -/
def freshLoop (s : DataTracker) (now : Int) (batchSize : Nat)
    (batch : List (Int × String)) : DataTracker × List (Int × String) :=
  if h1 : batch.length < batchSize then
    match s.inLines[s.inPos]? with
    | none => (s, batch)
    | some content =>
      let s1 := { s with inPos := s.inPos + 1 }
      let t := trackIssuedWork s1 now content (offAt s1.inLines s1.inPos) none
      freshLoop t.2 now batchSize (batch ++ [t.1])
  else (s, batch)
termination_by batchSize - batch.length
decreasing_by
  simp only [List.length_append, List.length_singleton]
  omega

/-- get_work_batch: the reissue pass, then the fresh-read pass, returning
the batch, or nothing when it came out empty. -/
def getWorkBatch (s : DataTracker) (now : Int) (batchSize : Nat) :
    DataTracker × Option (List (Int × String)) :=
  let r1 := reissueLoop s now batchSize []
  let r2 := freshLoop r1.1 now batchSize r1.2
  (r2.1, if r2.2.isEmpty then none else some r2.2)

/-- close: write a final checkpoint unconditionally (closing the file
handles has no observable effect in the model). -/
def close (s : DataTracker) : DataTracker := writeCheckpoint s

/-- States reachable from a starting state by the public operations. -/
inductive Reachable (s0 : DataTracker) : DataTracker → Prop where
  | refl : Reachable s0 s0
  | getWork {s : DataTracker} (now : Int) (batchSize : Nat) :
      Reachable s0 s → Reachable s0 (getWorkBatch s now batchSize).1
  | complete {s : DataTracker} (now : Int) (batch : List (Int × String)) :
      Reachable s0 s → Reachable s0 (completeWorkBatch s now batch)
  | closeOp {s : DataTracker} : Reachable s0 s → Reachable s0 (close s)

/-- Structural part of the tracker invariant: the id counters bracket the
issued map, pending-writes ids are issued, and the modelled dicts have
distinct keys. -/
def StructInv (s : DataTracker) : Prop :=
  (-1 ≤ s.lastProcessedWorkId) ∧
  (s.lastProcessedWorkId + 1 ≤ s.nextWorkId) ∧
  (∀ p ∈ s.issued, s.lastProcessedWorkId < p.1 ∧ p.1 < s.nextWorkId) ∧
  (∀ p ∈ s.pendingWrite, (alookup s.issued p.1).isSome) ∧
  (akeys s.issued).Nodup ∧
  (akeys s.pendingWrite).Nodup

/-- Full tracker invariant: the structural part, a fully drained flush
front, the output file holding exactly one line per id from 0 up to the
last processed id in that order, a sorted heap, and a reader position
within the input file. -/
def Inv (s : DataTracker) : Prop :=
  StructInv s ∧
  alookup s.pendingWrite (s.lastProcessedWorkId + 1) = none ∧
  s.out.map Prod.fst = intRange (s.lastProcessedWorkId + 1) ∧
  List.Sorted heapLe s.issuedHeap ∧
  s.inPos ≤ s.inLines.length

/-! Lemmas about the modelled dict operations. -/

theorem alookup_aerase_self {α : Type} (m : List (Int × α)) (k : Int) :
    alookup (aerase m k) k = none := by
  induction m with
  | nil => rfl
  | cons p rest ih =>
    simp only [aerase, List.filter_cons] at *
    by_cases hk : p.1 = k
    · simp [hk] at *
      exact ih
    · have hb : (p.1 != k) = true := by simpa using hk
      rw [hb]
      simp only [if_true]
      rw [alookup_cons, if_neg (fun e => hk e.symm)]
      exact ih

theorem alookup_aerase_ne {α : Type} (m : List (Int × α)) (k k2 : Int) (h : k2 ≠ k) :
    alookup (aerase m k) k2 = alookup m k2 := by
  induction m with
  | nil => rfl
  | cons p rest ih =>
    simp only [aerase, List.filter_cons] at *
    by_cases hk : p.1 = k
    · have hb : (p.1 != k) = false := by simpa using hk
      rw [hb]
      simp only [Bool.false_eq_true, if_false]
      rw [alookup_cons, if_neg (fun e => h (e.trans hk))]
      exact ih
    · have hb : (p.1 != k) = true := by simpa using hk
      rw [hb]
      simp only [if_true]
      rw [alookup_cons, alookup_cons]
      by_cases h2 : k2 = p.1
      · simp [h2]
      · rw [if_neg h2, if_neg h2]
        exact ih

theorem alookup_aset_self {α : Type} (m : List (Int × α)) (k : Int) (v : α) :
    alookup (aset m k v) k = some v := by
  simp [aset, alookup_cons]

theorem alookup_aset_ne {α : Type} (m : List (Int × α)) (k k2 : Int) (v : α) (h : k2 ≠ k) :
    alookup (aset m k v) k2 = alookup m k2 := by
  simp only [aset, alookup_cons, if_neg h]
  exact alookup_aerase_ne m k k2 h

theorem mem_aerase {α : Type} {m : List (Int × α)} {k : Int} {p : Int × α}
    (h : p ∈ aerase m k) : p ∈ m ∧ p.1 ≠ k := by
  have h2 := List.of_mem_filter h
  exact ⟨List.mem_of_mem_filter h, by simpa using h2⟩

theorem mem_aerase_of {α : Type} {m : List (Int × α)} {k : Int} {p : Int × α}
    (h : p ∈ m) (hne : p.1 ≠ k) : p ∈ aerase m k := by
  refine List.mem_filter.2 ⟨h, by simpa using hne⟩

theorem mem_aset {α : Type} {m : List (Int × α)} {k : Int} {v : α} {p : Int × α}
    (h : p ∈ aset m k v) : p = (k, v) ∨ (p ∈ m ∧ p.1 ≠ k) := by
  rcases List.mem_cons.1 h with h | h
  · exact Or.inl h
  · exact Or.inr (mem_aerase h)

theorem alookup_mem {α : Type} {m : List (Int × α)} {k : Int} {v : α}
    (h : alookup m k = some v) : (k, v) ∈ m := by
  induction m with
  | nil => simp [alookup] at h
  | cons p rest ih =>
    rw [alookup_cons] at h
    by_cases hk : k = p.1
    · rw [if_pos hk] at h
      obtain rfl : p.2 = v := by injection h
      subst hk
      simp
    · rw [if_neg hk] at h
      exact List.mem_cons_of_mem _ (ih h)

theorem alookup_isSome_of_mem {α : Type} {m : List (Int × α)} {p : Int × α}
    (h : p ∈ m) : (alookup m p.1).isSome := by
  induction m with
  | nil => simp at h
  | cons q rest ih =>
    rw [alookup_cons]
    rcases List.mem_cons.1 h with h | h
    · rw [h]
      simp
    · by_cases hk : p.1 = q.1
      · simp [hk]
      · rw [if_neg hk]
        exact ih h

theorem alookup_none_of_forall {α : Type} {m : List (Int × α)} {k : Int}
    (h : ∀ p ∈ m, p.1 ≠ k) : alookup m k = none := by
  induction m with
  | nil => rfl
  | cons p rest ih =>
    rw [alookup_cons, if_neg (fun e => h p (List.mem_cons_self p rest) e.symm)]
    exact ih (fun q hq => h q (List.mem_cons_of_mem p hq))

theorem akeys_aerase_sublist {α : Type} (m : List (Int × α)) (k : Int) :
    (akeys (aerase m k)).Sublist (akeys m) :=
  List.Sublist.map Prod.fst (List.filter_sublist m)

theorem akeys_aerase_nodup {α : Type} {m : List (Int × α)} (h : (akeys m).Nodup) (k : Int) :
    (akeys (aerase m k)).Nodup :=
  h.sublist (akeys_aerase_sublist m k)

theorem akeys_aset_nodup {α : Type} {m : List (Int × α)} (h : (akeys m).Nodup) (k : Int) (v : α) :
    (akeys (aset m k v)).Nodup := by
  simp only [aset, akeys, List.map_cons, List.nodup_cons]
  constructor
  · intro hmem
    rcases List.mem_map.1 hmem with ⟨p, hp, he⟩
    exact (mem_aerase hp).2 he
  · exact akeys_aerase_nodup h k

/-! Lemmas about integer ranges and byte offsets. -/

theorem intRangeFrom_zero (a : Int) : intRangeFrom a 0 = [] := rfl

theorem intRangeFrom_succ (a : Int) (n : Nat) :
    intRangeFrom a (n + 1) = a :: intRangeFrom (a + 1) n := by
  simp only [intRangeFrom, List.range_succ_eq_map, List.map_cons, List.map_map, Nat.cast_zero,
    add_zero]
  refine congrArg (List.cons a) ?_
  apply List.map_congr_left
  intro i hi
  simp only [Function.comp_apply]
  push_cast
  ring

theorem intRange_append_from (m : Int) (k : Nat) (hm : 0 ≤ m) :
    intRange m ++ intRangeFrom m k = intRange (m + k) := by
  simp only [intRange, intRangeFrom]
  have h1 : (m + (k : Int)).toNat = m.toNat + k := by omega
  rw [h1, List.range_add, List.map_append]
  congr 1
  rw [List.map_map]
  apply List.map_congr_left
  intro i hi
  simp only [Function.comp_apply]
  push_cast
  omega

theorem lineBytes_pos (l : String) : 0 < lineBytes l := by
  simp only [lineBytes]
  omega

theorem offAt_zero (lines : List String) : offAt lines 0 = 0 := rfl

theorem offAt_cons (l : String) (rest : List String) (k : Nat) :
    offAt (l :: rest) (k + 1) = lineBytes l + offAt rest k := by
  simp [offAt, List.take_succ_cons]

theorem offAt_nonneg (lines : List String) (k : Nat) : 0 ≤ offAt lines k := by
  induction lines generalizing k with
  | nil => simp [offAt]
  | cons l rest ih =>
    cases k with
    | zero => simp [offAt_zero]
    | succ k2 =>
      rw [offAt_cons]
      have := lineBytes_pos l
      have := ih k2
      omega

theorem seekIdx_offAt (lines : List String) (k : Nat) (h : k ≤ lines.length) :
    seekIdx lines (offAt lines k) = k := by
  induction lines generalizing k with
  | nil =>
    have hk : k = 0 := Nat.le_zero.1 h
    subst hk
    rfl
  | cons l rest ih =>
    cases k with
    | zero =>
      rw [offAt_zero]
      simp only [seekIdx]
      rw [if_neg (by have := lineBytes_pos l; omega)]
    | succ k2 =>
      rw [offAt_cons]
      simp only [seekIdx]
      have hnn := offAt_nonneg rest k2
      rw [if_pos (by omega)]
      have h2 : lineBytes l + offAt rest k2 - lineBytes l = offAt rest k2 := by omega
      rw [h2, ih k2 (by simpa using h)]

theorem seekIdx_zero (lines : List String) : seekIdx lines 0 = 0 := by
  cases lines with
  | nil => rfl
  | cons l rest =>
    simp only [seekIdx]
    rw [if_neg (by have := lineBytes_pos l; omega)]

theorem consumeLines_eq (len n pos : Nat) (h : pos + n ≤ len) :
    consumeLines len n pos = pos + n := by
  induction n generalizing pos with
  | zero => rfl
  | succ m ih =>
    simp only [consumeLines]
    rw [if_pos (by omega)]
    rw [ih (pos + 1) (by omega)]
    omega

theorem offAt_lt_fileBytes (lines : List String) (k : Nat) (h : k < lines.length) :
    offAt lines k < fileBytes lines := by
  induction lines generalizing k with
  | nil => simp at h
  | cons l rest ih =>
    cases k with
    | zero =>
      rw [offAt_zero]
      simp only [fileBytes, List.map_cons, List.sum_cons]
      have h1 := lineBytes_pos l
      have h2 : 0 ≤ (rest.map lineBytes).sum := by
        apply List.sum_nonneg
        intro x hx
        rcases List.mem_map.1 hx with ⟨l2, _, rfl⟩
        exact le_of_lt (lineBytes_pos l2)
      omega
    | succ k2 =>
      rw [offAt_cons]
      simp only [fileBytes, List.map_cons, List.sum_cons]
      have := ih k2 (by simpa using h)
      simp only [fileBytes] at this
      omega

theorem offAt_length_eq (lines : List String) : offAt lines lines.length = fileBytes lines := by
  simp [offAt, fileBytes]

/-! One-step unfolding equations for the three loops, stated with the
branch conditions as hypotheses. -/

theorem trackIssuedWork_fst_some (s : DataTracker) (when : Int) (content : String)
    (off w : Int) : (trackIssuedWork s when content off (some w)).1 = (w, content) := by
  simp only [trackIssuedWork]
  cases alookup s.issued w <;> rfl

theorem flushLoop_none {s : DataTracker} {acc : List (Int × String)}
    (h : alookup s.pendingWrite (s.lastProcessedWorkId + 1) = none) :
    flushLoop s acc = (s, acc) := by
  rw [flushLoop, h]

theorem flushLoop_step {s : DataTracker} {acc : List (Int × String)} {result : String}
    (h : alookup s.pendingWrite (s.lastProcessedWorkId + 1) = some result) :
    flushLoop s acc =
      flushLoop { s with pendingWrite := aerase s.pendingWrite (s.lastProcessedWorkId + 1),
                         lastProcessedWorkId := s.lastProcessedWorkId + 1,
                         inputOffset := match alookup s.issued (s.lastProcessedWorkId + 1) with
                           | some info => info.inputOffset
                           | none => s.inputOffset,
                         issued := aerase s.issued (s.lastProcessedWorkId + 1) }
        (acc ++ [(s.lastProcessedWorkId + 1, result)]) := by
  rw [flushLoop, h]

theorem reissueLoop_full {s : DataTracker} {now : Int} {batchSize : Nat}
    {batch : List (Int × String)} (hlt : ¬batch.length < batchSize) :
    reissueLoop s now batchSize batch = (s, batch) := by
  rw [reissueLoop, dif_neg hlt]

theorem reissueLoop_nil {s : DataTracker} {now : Int} {batchSize : Nat}
    {batch : List (Int × String)} (hlt : batch.length < batchSize)
    (hheap : s.issuedHeap = []) :
    reissueLoop s now batchSize batch = (s, batch) := by
  rw [reissueLoop, dif_pos hlt, hheap]

theorem reissueLoop_stale {s : DataTracker} {now : Int} {batchSize : Nat}
    {batch : List (Int × String)} {ts w : Int} {rest : List (Int × Int)}
    (hlt : batch.length < batchSize) (hheap : s.issuedHeap = (ts, w) :: rest)
    (hstale : (alookup s.issued w).isNone ∨ (alookup s.pendingWrite w).isSome) :
    reissueLoop s now batchSize batch =
      reissueLoop { s with issuedHeap := rest } now batchSize batch := by
  rw [reissueLoop, dif_pos hlt, hheap]
  simp only []
  rw [dif_pos hstale]

theorem reissueLoop_stop {s : DataTracker} {now : Int} {batchSize : Nat}
    {batch : List (Int × String)} {ts w : Int} {rest : List (Int × Int)}
    (hlt : batch.length < batchSize) (hheap : s.issuedHeap = (ts, w) :: rest)
    (hlive : ¬((alookup s.issued w).isNone ∨ (alookup s.pendingWrite w).isSome))
    (hfresh : ¬now - s.workTimeout > ts) :
    reissueLoop s now batchSize batch = (s, batch) := by
  rw [reissueLoop, dif_pos hlt, hheap]
  simp only []
  rw [dif_neg hlive, dif_neg hfresh]

theorem reissueLoop_tombstone {s : DataTracker} {now : Int} {batchSize : Nat}
    {batch : List (Int × String)} {ts w : Int} {rest : List (Int × Int)} {info : WorkInfo}
    (hlt : batch.length < batchSize) (hheap : s.issuedHeap = (ts, w) :: rest)
    (hlive : ¬((alookup s.issued w).isNone ∨ (alookup s.pendingWrite w).isSome))
    (hexp : now - s.workTimeout > ts)
    (hinfo : alookup s.issued w = some info)
    (hmr : s.maxRetries ≠ -1 ∧ s.maxRetries ≤ info.retryCount) :
    reissueLoop s now batchSize batch =
      reissueLoop
        (internalCompleteWorkBatch { s with issuedHeap := rest } now
          [(w, tombstoneJson w info.content)])
        now batchSize batch := by
  rw [reissueLoop, dif_pos hlt, hheap]
  simp only []
  rw [dif_neg hlive, dif_pos hexp, hinfo]
  simp only []
  rw [dif_pos hmr]

theorem reissueLoop_reissue {s : DataTracker} {now : Int} {batchSize : Nat}
    {batch : List (Int × String)} {ts w : Int} {rest : List (Int × Int)} {info : WorkInfo}
    (hlt : batch.length < batchSize) (hheap : s.issuedHeap = (ts, w) :: rest)
    (hlive : ¬((alookup s.issued w).isNone ∨ (alookup s.pendingWrite w).isSome))
    (hexp : now - s.workTimeout > ts)
    (hinfo : alookup s.issued w = some info)
    (hmr : ¬(s.maxRetries ≠ -1 ∧ s.maxRetries ≤ info.retryCount)) :
    reissueLoop s now batchSize batch =
      reissueLoop
        (trackIssuedWork { s with issuedHeap := rest } now info.content info.inputOffset
          (some w)).2
        now batchSize
        (batch ++ [(trackIssuedWork { s with issuedHeap := rest } now info.content
          info.inputOffset (some w)).1]) := by
  rw [reissueLoop, dif_pos hlt, hheap]
  simp only []
  rw [dif_neg hlive, dif_pos hexp, hinfo]
  simp only []
  rw [dif_neg hmr]

theorem freshLoop_full {s : DataTracker} {now : Int} {batchSize : Nat}
    {batch : List (Int × String)} (hlt : ¬batch.length < batchSize) :
    freshLoop s now batchSize batch = (s, batch) := by
  rw [freshLoop, dif_neg hlt]

theorem freshLoop_eof {s : DataTracker} {now : Int} {batchSize : Nat}
    {batch : List (Int × String)} (hlt : batch.length < batchSize)
    (h : s.inLines[s.inPos]? = none) :
    freshLoop s now batchSize batch = (s, batch) := by
  rw [freshLoop, dif_pos hlt, h]

theorem freshLoop_step {s : DataTracker} {now : Int} {batchSize : Nat}
    {batch : List (Int × String)} {content : String} (hlt : batch.length < batchSize)
    (h : s.inLines[s.inPos]? = some content) :
    freshLoop s now batchSize batch =
      freshLoop
        (trackIssuedWork { s with inPos := s.inPos + 1 } now content
          (offAt s.inLines (s.inPos + 1)) none).2
        now batchSize (batch ++ [(s.nextWorkId, content)]) := by
  rw [freshLoop, dif_pos hlt, h]
  simp only []
  rfl

/-! Field preservation along the completion path. -/

theorem completeOne_fields (s : DataTracker) (item : Int × String) :
    (completeOne s item).lastProcessedWorkId = s.lastProcessedWorkId ∧
    (completeOne s item).issued = s.issued ∧
    (completeOne s item).out = s.out ∧
    (completeOne s item).nextWorkId = s.nextWorkId ∧
    (completeOne s item).inPos = s.inPos ∧
    (completeOne s item).inLines = s.inLines ∧
    (completeOne s item).inputOffset = s.inputOffset ∧
    (completeOne s item).workTimeout = s.workTimeout ∧
    (completeOne s item).maxRetries = s.maxRetries ∧
    (completeOne s item).checkpointInterval = s.checkpointInterval ∧
    (completeOne s item).lastCheckpointTime = s.lastCheckpointTime := by
  unfold completeOne
  split
  · simp
  split <;> simp

theorem foldl_completeOne_fields (batch : List (Int × String)) (s : DataTracker) :
    (batch.foldl completeOne s).lastProcessedWorkId = s.lastProcessedWorkId ∧
    (batch.foldl completeOne s).issued = s.issued ∧
    (batch.foldl completeOne s).out = s.out ∧
    (batch.foldl completeOne s).nextWorkId = s.nextWorkId ∧
    (batch.foldl completeOne s).inPos = s.inPos ∧
    (batch.foldl completeOne s).inLines = s.inLines ∧
    (batch.foldl completeOne s).inputOffset = s.inputOffset ∧
    (batch.foldl completeOne s).workTimeout = s.workTimeout ∧
    (batch.foldl completeOne s).maxRetries = s.maxRetries ∧
    (batch.foldl completeOne s).checkpointInterval = s.checkpointInterval ∧
    (batch.foldl completeOne s).lastCheckpointTime = s.lastCheckpointTime := by
  induction batch generalizing s with
  | nil => simp
  | cons b rest ih =>
    rw [List.foldl_cons]
    have h1 := completeOne_fields s b
    have h2 := ih (completeOne s b)
    obtain ⟨a1, a2, a3, a4, a5, a6, a7, a8, a9, a10, a11⟩ := h1
    obtain ⟨b1, b2, b3, b4, b5, b6, b7, b8, b9, b10, b11⟩ := h2
    exact ⟨b1.trans a1, b2.trans a2, b3.trans a3, b4.trans a4, b5.trans a5, b6.trans a6,
      b7.trans a7, b8.trans a8, b9.trans a9, b10.trans a10, b11.trans a11⟩

theorem flushLoop_fields (s : DataTracker) (acc : List (Int × String)) :
    (flushLoop s acc).1.nextWorkId = s.nextWorkId ∧
    (flushLoop s acc).1.out = s.out ∧
    (flushLoop s acc).1.inPos = s.inPos ∧
    (flushLoop s acc).1.inLines = s.inLines ∧
    (flushLoop s acc).1.workTimeout = s.workTimeout ∧
    (flushLoop s acc).1.maxRetries = s.maxRetries ∧
    (flushLoop s acc).1.checkpointInterval = s.checkpointInterval ∧
    (flushLoop s acc).1.lastCheckpointTime = s.lastCheckpointTime := by
  induction s, acc using flushLoop.induct with
  | case1 s acc h =>
    rw [flushLoop, h]
    exact ⟨rfl, rfl, rfl, rfl, rfl, rfl, rfl, rfl⟩
  | case2 s acc result h nextId newOffset ih =>
    rw [flushLoop, h]
    exact ih

/-! Preservation of the structural invariant. -/

theorem structInv_completeOne {s : DataTracker} (hs : StructInv s) (item : Int × String) :
    StructInv (completeOne s item) := by
  obtain ⟨h1, h2, h3, h4, h5, h6⟩ := hs
  unfold completeOne
  by_cases c1 : item.1 ≤ s.lastProcessedWorkId ∨ (alookup s.pendingWrite item.1).isSome
  · rw [if_pos c1]
    exact ⟨h1, h2, h3, h4, h5, h6⟩
  rw [if_neg c1]
  by_cases c2 : (alookup s.issued item.1).isNone
  · rw [if_pos c2]
    exact ⟨h1, h2, h3, h4, h5, h6⟩
  rw [if_neg c2]
  refine ⟨h1, h2, h3, ?_, h5, ?_⟩
  · intro p hp
    rcases mem_aset hp with rfl | ⟨hp2, hne⟩
    · have hne2 : alookup s.issued item.1 ≠ none := by simpa using c2
      simpa using Option.isSome_iff_ne_none.2 hne2
    · exact h4 p hp2
  · exact akeys_aset_nodup h6 item.1 item.2

theorem structInv_foldl_completeOne {s : DataTracker} (hs : StructInv s)
    (batch : List (Int × String)) : StructInv (batch.foldl completeOne s) := by
  induction batch generalizing s with
  | nil => exact hs
  | cons b rest ih => exact ih (structInv_completeOne hs b)

theorem structInv_flush_step {s : DataTracker} (hs : StructInv s) {result : String}
    (h : alookup s.pendingWrite (s.lastProcessedWorkId + 1) = some result) (off : Int) :
    StructInv { s with pendingWrite := aerase s.pendingWrite (s.lastProcessedWorkId + 1),
                       lastProcessedWorkId := s.lastProcessedWorkId + 1,
                       inputOffset := off,
                       issued := aerase s.issued (s.lastProcessedWorkId + 1) } := by
  obtain ⟨h1, h2, h3, h4, h5, h6⟩ := hs
  have hmemP : (s.lastProcessedWorkId + 1, result) ∈ s.pendingWrite := alookup_mem h
  have hIsS : (alookup s.issued (s.lastProcessedWorkId + 1)).isSome := h4 _ hmemP
  obtain ⟨info, hinfo⟩ := Option.isSome_iff_exists.1 hIsS
  have hbound := h3 _ (alookup_mem hinfo)
  have hb2 : s.lastProcessedWorkId + 1 < s.nextWorkId := hbound.2
  refine ⟨show (-1 : Int) ≤ s.lastProcessedWorkId + 1 from by omega,
    show s.lastProcessedWorkId + 1 + 1 ≤ s.nextWorkId from by omega, ?_, ?_,
    akeys_aerase_nodup h5 _, akeys_aerase_nodup h6 _⟩
  · intro p hp
    obtain ⟨hp2, hne⟩ := mem_aerase hp
    have hb3 := h3 p hp2
    exact ⟨show s.lastProcessedWorkId + 1 < p.1 from by omega,
      show p.1 < s.nextWorkId from hb3.2⟩
  · intro p hp
    obtain ⟨hp2, hne⟩ := mem_aerase hp
    have hl := h4 p hp2
    show (alookup (aerase s.issued (s.lastProcessedWorkId + 1)) p.1).isSome
    rw [alookup_aerase_ne _ _ _ hne]
    exact hl

theorem flushLoop_spec (s : DataTracker) (acc : List (Int × String)) :
    StructInv s →
    StructInv (flushLoop s acc).1 ∧
    alookup (flushLoop s acc).1.pendingWrite ((flushLoop s acc).1.lastProcessedWorkId + 1) = none ∧
    s.lastProcessedWorkId ≤ (flushLoop s acc).1.lastProcessedWorkId ∧
    (flushLoop s acc).2.map Prod.fst = acc.map Prod.fst ++
      intRangeFrom (s.lastProcessedWorkId + 1)
        ((flushLoop s acc).1.lastProcessedWorkId - s.lastProcessedWorkId).toNat ∧
    (∃ ws : List (Int × String), (flushLoop s acc).2 = acc ++ ws) := by
  induction s, acc using flushLoop.induct with
  | case1 s acc h =>
    intro hs
    rw [flushLoop, h]
    refine ⟨hs, h, le_refl _, ?_, ⟨[], by simp⟩⟩
    simp [intRangeFrom_zero]
  | case2 s acc result h nextId newOffset ih =>
    intro hs
    have hstep := structInv_flush_step hs h newOffset
    have spec2 :
        StructInv (flushLoop
            { s with pendingWrite := aerase s.pendingWrite (s.lastProcessedWorkId + 1),
                     lastProcessedWorkId := s.lastProcessedWorkId + 1,
                     inputOffset := newOffset,
                     issued := aerase s.issued (s.lastProcessedWorkId + 1) }
            (acc ++ [(s.lastProcessedWorkId + 1, result)])).1 ∧
        alookup (flushLoop
            { s with pendingWrite := aerase s.pendingWrite (s.lastProcessedWorkId + 1),
                     lastProcessedWorkId := s.lastProcessedWorkId + 1,
                     inputOffset := newOffset,
                     issued := aerase s.issued (s.lastProcessedWorkId + 1) }
            (acc ++ [(s.lastProcessedWorkId + 1, result)])).1.pendingWrite
          ((flushLoop
            { s with pendingWrite := aerase s.pendingWrite (s.lastProcessedWorkId + 1),
                     lastProcessedWorkId := s.lastProcessedWorkId + 1,
                     inputOffset := newOffset,
                     issued := aerase s.issued (s.lastProcessedWorkId + 1) }
            (acc ++ [(s.lastProcessedWorkId + 1, result)])).1.lastProcessedWorkId + 1) = none ∧
        s.lastProcessedWorkId + 1 ≤ (flushLoop
            { s with pendingWrite := aerase s.pendingWrite (s.lastProcessedWorkId + 1),
                     lastProcessedWorkId := s.lastProcessedWorkId + 1,
                     inputOffset := newOffset,
                     issued := aerase s.issued (s.lastProcessedWorkId + 1) }
            (acc ++ [(s.lastProcessedWorkId + 1, result)])).1.lastProcessedWorkId ∧
        (flushLoop
            { s with pendingWrite := aerase s.pendingWrite (s.lastProcessedWorkId + 1),
                     lastProcessedWorkId := s.lastProcessedWorkId + 1,
                     inputOffset := newOffset,
                     issued := aerase s.issued (s.lastProcessedWorkId + 1) }
            (acc ++ [(s.lastProcessedWorkId + 1, result)])).2.map Prod.fst =
          (acc ++ [(s.lastProcessedWorkId + 1, result)]).map Prod.fst ++
          intRangeFrom (s.lastProcessedWorkId + 1 + 1)
            ((flushLoop
              { s with pendingWrite := aerase s.pendingWrite (s.lastProcessedWorkId + 1),
                       lastProcessedWorkId := s.lastProcessedWorkId + 1,
                       inputOffset := newOffset,
                       issued := aerase s.issued (s.lastProcessedWorkId + 1) }
              (acc ++ [(s.lastProcessedWorkId + 1, result)])).1.lastProcessedWorkId -
              (s.lastProcessedWorkId + 1)).toNat ∧
        (∃ ws : List (Int × String), (flushLoop
            { s with pendingWrite := aerase s.pendingWrite (s.lastProcessedWorkId + 1),
                     lastProcessedWorkId := s.lastProcessedWorkId + 1,
                     inputOffset := newOffset,
                     issued := aerase s.issued (s.lastProcessedWorkId + 1) }
            (acc ++ [(s.lastProcessedWorkId + 1, result)])).2 =
          (acc ++ [(s.lastProcessedWorkId + 1, result)]) ++ ws) := ih hstep
    have heq : flushLoop s acc =
        flushLoop { s with pendingWrite := aerase s.pendingWrite (s.lastProcessedWorkId + 1),
                           lastProcessedWorkId := s.lastProcessedWorkId + 1,
                           inputOffset := newOffset,
                           issued := aerase s.issued (s.lastProcessedWorkId + 1) }
          (acc ++ [(s.lastProcessedWorkId + 1, result)]) := by
      rw [flushLoop, h]
    rw [heq]
    obtain ⟨s1, s2, s3, s4, s5⟩ := spec2
    have harith : ((flushLoop
        { s with pendingWrite := aerase s.pendingWrite (s.lastProcessedWorkId + 1),
                 lastProcessedWorkId := s.lastProcessedWorkId + 1,
                 inputOffset := newOffset,
                 issued := aerase s.issued (s.lastProcessedWorkId + 1) }
        (acc ++ [(s.lastProcessedWorkId + 1, result)])).1.lastProcessedWorkId -
        s.lastProcessedWorkId).toNat =
      ((flushLoop
        { s with pendingWrite := aerase s.pendingWrite (s.lastProcessedWorkId + 1),
                 lastProcessedWorkId := s.lastProcessedWorkId + 1,
                 inputOffset := newOffset,
                 issued := aerase s.issued (s.lastProcessedWorkId + 1) }
        (acc ++ [(s.lastProcessedWorkId + 1, result)])).1.lastProcessedWorkId -
        (s.lastProcessedWorkId + 1)).toNat + 1 := by omega
    refine ⟨s1, s2, by omega, ?_, ?_⟩
    · rw [s4, harith, intRangeFrom_succ]
      simp [List.append_assoc]
    · obtain ⟨ws, hws⟩ := s5
      refine ⟨(s.lastProcessedWorkId + 1, result) :: ws, ?_⟩
      rw [hws]
      simp

/-! Preservation of the full invariant by the public operations. -/

theorem inv_cpTime {s : DataTracker} (hs : Inv s) (cpf : Option (Option Checkpoint)) (t : Int) :
    Inv { s with checkpointFile := cpf, lastCheckpointTime := t } := by
  obtain ⟨⟨h1, h2, h3, h4, h5, h6⟩, hf, ho, hs2, hp⟩ := hs
  exact ⟨⟨h1, h2, h3, h4, h5, h6⟩, hf, ho, hs2, hp⟩

theorem inv_flushPendingWrites {s : DataTracker} (hstruct : StructInv s)
    (hout : s.out.map Prod.fst = intRange (s.lastProcessedWorkId + 1))
    (hsort : List.Sorted heapLe s.issuedHeap) (hpos : s.inPos ≤ s.inLines.length) :
    Inv (flushPendingWrites s) := by
  obtain ⟨i1, i2, i3, i4, i5⟩ := flushLoop_spec s [] hstruct
  obtain ⟨f1, f2, f3, f4, f5, f6, f7, f8⟩ := flushLoop_fields s []
  have hheap := flushLoop_issuedHeap s []
  have hm1 : -1 ≤ s.lastProcessedWorkId := hstruct.1
  simp only [List.map_nil, List.nil_append] at i4
  refine ⟨i1, i2, ?_, ?_, ?_⟩
  · show ((flushLoop s []).1.out ++ (flushLoop s []).2).map Prod.fst =
      intRange ((flushLoop s []).1.lastProcessedWorkId + 1)
    rw [List.map_append, f2, hout, i4,
      intRange_append_from _ _ (by omega : (0 : Int) ≤ s.lastProcessedWorkId + 1)]
    refine congrArg intRange ?_
    omega
  · show List.Sorted heapLe (flushLoop s []).1.issuedHeap
    rw [hheap]
    exact hsort
  · show (flushLoop s []).1.inPos ≤ (flushLoop s []).1.inLines.length
    rw [f3, f4]
    exact hpos

theorem inv_internalComplete {s : DataTracker} (hs : Inv s) (now : Int)
    (batch : List (Int × String)) : Inv (internalCompleteWorkBatch s now batch) := by
  obtain ⟨hstruct, hflushed, hout, hsort, hpos⟩ := hs
  obtain ⟨a1, a2, a3, a4, a5, a6, a7, a8, a9, a10, a11⟩ := foldl_completeOne_fields batch s
  have h1 : StructInv (batch.foldl completeOne s) := structInv_foldl_completeOne hstruct batch
  have h2 : Inv (flushPendingWrites (batch.foldl completeOne s)) := by
    refine inv_flushPendingWrites h1 ?_ ?_ ?_
    · rw [a3, a1]
      exact hout
    · rw [foldl_completeOne_issuedHeap]
      exact hsort
    · rw [a5, a6]
      exact hpos
  simp only [internalCompleteWorkBatch]
  split
  · exact inv_cpTime h2 _ now
  · exact h2

theorem inv_trackIssued_fresh {s : DataTracker} (hs : Inv s) (when : Int) (content : String)
    (off : Int) : Inv (trackIssuedWork s when content off none).2 := by
  obtain ⟨⟨h1, h2, h3, h4, h5, h6⟩, hf, ho, hsort, hp⟩ := hs
  refine ⟨⟨h1, show s.lastProcessedWorkId + 1 ≤ s.nextWorkId + 1 from by omega, ?_, ?_,
    akeys_aset_nodup h5 _ _, h6⟩, hf, ho, ?_, hp⟩
  · intro p hp2
    rcases mem_aset hp2 with rfl | ⟨hp3, hne⟩
    · exact ⟨show s.lastProcessedWorkId < s.nextWorkId from by omega,
        show s.nextWorkId < s.nextWorkId + 1 from by omega⟩
    · have hb := h3 p hp3
      exact ⟨hb.1, show p.1 < s.nextWorkId + 1 from by
        have := hb.2
        omega⟩
  · intro p hp2
    have hl := h4 p hp2
    by_cases he : p.1 = s.nextWorkId
    · show (alookup (aset s.issued s.nextWorkId ⟨content, off, 0⟩) p.1).isSome
      rw [he, alookup_aset_self]
      rfl
    · show (alookup (aset s.issued s.nextWorkId ⟨content, off, 0⟩) p.1).isSome
      rw [alookup_aset_ne _ _ _ _ he]
      exact hl
  · show List.Sorted heapLe (heapPush s.issuedHeap (when, s.nextWorkId))
    exact List.Sorted.orderedInsert _ _ hsort

theorem inv_trackIssued_reissue {s : DataTracker} (hs : Inv s) (when : Int) (content : String)
    (off w : Int) : Inv (trackIssuedWork s when content off (some w)).2 := by
  obtain ⟨⟨h1, h2, h3, h4, h5, h6⟩, hf, ho, hsort, hp⟩ := hs
  cases hw : alookup s.issued w with
  | none =>
    simp only [trackIssuedWork, hw]
    exact ⟨⟨h1, h2, h3, h4, h5, h6⟩, hf, ho, List.Sorted.orderedInsert _ _ hsort, hp⟩
  | some info =>
    simp only [trackIssuedWork, hw]
    have hb := h3 _ (alookup_mem hw)
    refine ⟨⟨h1, h2, ?_, ?_, akeys_aset_nodup h5 _ _, h6⟩, hf, ho,
      List.Sorted.orderedInsert _ _ hsort, hp⟩
    · intro p hp2
      rcases mem_aset hp2 with rfl | ⟨hp3, hne⟩
      · exact ⟨hb.1, hb.2⟩
      · exact h3 p hp3
    · intro p hp2
      have hl := h4 p hp2
      by_cases he : p.1 = w
      · show (alookup (aset s.issued w
          ⟨info.content, info.inputOffset, info.retryCount + 1⟩) p.1).isSome
        rw [he, alookup_aset_self]
        rfl
      · show (alookup (aset s.issued w
          ⟨info.content, info.inputOffset, info.retryCount + 1⟩) p.1).isSome
        rw [alookup_aset_ne _ _ _ _ he]
        exact hl

theorem inv_freshLoop (s : DataTracker) (now : Int) (batchSize : Nat)
    (batch : List (Int × String)) (hs : Inv s) : Inv (freshLoop s now batchSize batch).1 := by
  induction s, now, batchSize, batch using freshLoop.induct with
  | case1 s now batchSize batch hlt h =>
    rw [freshLoop_eof hlt h]
    exact hs
  | case2 s now batchSize batch hlt content h s1 t ih =>
    rw [freshLoop_step hlt h]
    refine ih ?_
    have hlen : s.inPos < s.inLines.length := by
      rw [List.getElem?_eq_some] at h
      exact h.1
    have hs1 : Inv { s with inPos := s.inPos + 1 } := by
      obtain ⟨⟨h1, h2, h3, h4, h5, h6⟩, hf, ho, hsort, hp⟩ := hs
      exact ⟨⟨h1, h2, h3, h4, h5, h6⟩, hf, ho, hsort,
        show s.inPos + 1 ≤ s.inLines.length from by omega⟩
    exact inv_trackIssued_fresh hs1 now content _
  | case3 s now batchSize batch hlt =>
    rw [freshLoop_full hlt]
    exact hs

theorem inv_reissueLoop (s : DataTracker) (now : Int) (batchSize : Nat)
    (batch : List (Int × String)) (hs : Inv s) : Inv (reissueLoop s now batchSize batch).1 := by
  induction s, now, batchSize, batch using reissueLoop.induct with
  | case1 s now batchSize batch hlt h =>
    rw [reissueLoop_nil hlt h]
    exact hs
  | case2 s now batchSize batch hlt ts workId rest h hstale ih =>
    rw [reissueLoop_stale hlt h hstale]
    refine ih ?_
    obtain ⟨hstruct, hf, ho, hsort, hp⟩ := hs
    refine ⟨hstruct, hf, ho, ?_, hp⟩
    rw [h] at hsort
    exact hsort.of_cons
  | case3 s now batchSize batch hlt ts workId rest h hstale hexp info hinfo hmr ih =>
    rw [reissueLoop_tombstone hlt h hstale hexp hinfo hmr]
    refine ih ?_
    refine inv_internalComplete ?_ now _
    obtain ⟨hstruct, hf, ho, hsort, hp⟩ := hs
    refine ⟨hstruct, hf, ho, ?_, hp⟩
    rw [h] at hsort
    exact hsort.of_cons
  | case4 s now batchSize batch hlt ts workId rest h hstale hexp info hinfo hmr t ih =>
    rw [reissueLoop_reissue hlt h hstale hexp hinfo hmr]
    refine ih ?_
    refine inv_trackIssued_reissue ?_ now info.content info.inputOffset workId
    obtain ⟨hstruct, hf, ho, hsort, hp⟩ := hs
    refine ⟨hstruct, hf, ho, ?_, hp⟩
    rw [h] at hsort
    exact hsort.of_cons
  | case5 s now batchSize batch hlt ts workId rest h hstale hexp hnone =>
    have : (alookup s.issued workId).isNone := by
      rw [hnone]
      rfl
    exact absurd (Or.inl this) hstale
  | case6 s now batchSize batch hlt ts workId rest h hstale hexp =>
    rw [reissueLoop_stop hlt h hstale hexp]
    exact hs
  | case7 s now batchSize batch hlt =>
    rw [reissueLoop_full hlt]
    exact hs

theorem inv_getWorkBatch {s : DataTracker} (hs : Inv s) (now : Int) (batchSize : Nat) :
    Inv (getWorkBatch s now batchSize).1 := by
  simp only [getWorkBatch]
  exact inv_freshLoop _ now batchSize _ (inv_reissueLoop s now batchSize [] hs)

theorem inv_completeWorkBatch {s : DataTracker} (hs : Inv s) (now : Int)
    (batch : List (Int × String)) : Inv (completeWorkBatch s now batch) :=
  inv_internalComplete hs now batch

theorem inv_close {s : DataTracker} (hs : Inv s) : Inv (close s) := by
  obtain ⟨⟨h1, h2, h3, h4, h5, h6⟩, hf, ho, hs2, hp⟩ := hs
  exact ⟨⟨h1, h2, h3, h4, h5, h6⟩, hf, ho, hs2, hp⟩

theorem inv_freshTracker (workTimeout checkpointInterval maxRetries : Int)
    (inL : List String) (t0 : Int) :
    Inv (freshTracker workTimeout checkpointInterval maxRetries inL t0) := by
  refine ⟨⟨?_, ?_, ?_, ?_, ?_, ?_⟩, ?_, ?_, ?_, ?_⟩ <;>
    simp [freshTracker, mkTracker, initState, loadCheckpoint, alookup, intRange, akeys,
      List.Sorted]

theorem reachable_inv {s0 s : DataTracker} (h : Reachable s0 s) (h0 : Inv s0) : Inv s := by
  induction h with
  | refl => exact h0
  | getWork now batchSize hr ih => exact inv_getWorkBatch ih now batchSize
  | complete now batch hr ih => exact inv_completeWorkBatch ih now batch
  | closeOp hr ih => exact inv_close ih

/-! A fuel-indexed, structurally recursive rendering of the three loops.
It agrees with the loops whenever the fuel covers their termination
measure, which lets closed runs of the operations be evaluated by the
kernel. -/

/-- flushLoop with explicit fuel. -/
def flushLoopF : Nat → DataTracker → List (Int × String) → DataTracker × List (Int × String)
  | 0, s, acc => (s, acc)
  | fuel+1, s, acc =>
    match alookup s.pendingWrite (s.lastProcessedWorkId + 1) with
    | none => (s, acc)
    | some result =>
      flushLoopF fuel
        { s with pendingWrite := aerase s.pendingWrite (s.lastProcessedWorkId + 1),
                 lastProcessedWorkId := s.lastProcessedWorkId + 1,
                 inputOffset := match alookup s.issued (s.lastProcessedWorkId + 1) with
                   | some info => info.inputOffset
                   | none => s.inputOffset,
                 issued := aerase s.issued (s.lastProcessedWorkId + 1) }
        (acc ++ [(s.lastProcessedWorkId + 1, result)])

theorem flushLoop_eq_fuel : ∀ (fuel : Nat) (s : DataTracker) (acc : List (Int × String)),
    s.pendingWrite.length ≤ fuel → flushLoop s acc = flushLoopF fuel s acc := by
  intro fuel
  induction fuel with
  | zero =>
    intro s acc hle
    have hemp : s.pendingWrite = [] := List.length_eq_zero.1 (Nat.le_zero.1 hle)
    rw [flushLoop_none (by rw [hemp]; rfl)]
    rfl
  | succ fuel ih =>
    intro s acc hle
    cases h : alookup s.pendingWrite (s.lastProcessedWorkId + 1) with
    | none =>
      rw [flushLoop_none h]
      simp [flushLoopF, h]
    | some result =>
      rw [flushLoop_step h]
      simp only [flushLoopF, h]
      apply ih
      have hlt := aerase_length_lt h
      show (aerase s.pendingWrite (s.lastProcessedWorkId + 1)).length ≤ fuel
      omega

/-- _flush_pending_writes rendered through the fuel version. -/
def flushPendingWritesF (s : DataTracker) : DataTracker :=
  let r := flushLoopF s.pendingWrite.length s []
  { r.1 with out := r.1.out ++ r.2 }

theorem flushPendingWrites_eval (s : DataTracker) :
    flushPendingWrites s = flushPendingWritesF s := by
  unfold flushPendingWrites flushPendingWritesF
  rw [flushLoop_eq_fuel s.pendingWrite.length s [] (le_refl _)]

/-- _complete_work_batch rendered through the fuel version. -/
def internalCompleteWorkBatchF (s : DataTracker) (now : Int)
    (batch : List (Int × String)) : DataTracker :=
  let s1 := batch.foldl completeOne s
  let s2 := flushPendingWritesF s1
  if s2.checkpointInterval ≤ now - s2.lastCheckpointTime then
    { writeCheckpoint s2 with lastCheckpointTime := now }
  else s2

theorem internalCompleteWorkBatch_eval (s : DataTracker) (now : Int)
    (batch : List (Int × String)) :
    internalCompleteWorkBatch s now batch = internalCompleteWorkBatchF s now batch := by
  simp only [internalCompleteWorkBatch, internalCompleteWorkBatchF, flushPendingWrites_eval]

theorem completeWorkBatch_eval (s : DataTracker) (now : Int)
    (batch : List (Int × String)) :
    completeWorkBatch s now batch = internalCompleteWorkBatchF s now batch :=
  internalCompleteWorkBatch_eval s now batch

/-- The reissue pass with explicit fuel. -/
def reissueLoopF : Nat → DataTracker → Int → Nat → List (Int × String) →
    DataTracker × List (Int × String)
  | 0, s, _, _, batch => (s, batch)
  | fuel+1, s, now, batchSize, batch =>
    if batch.length < batchSize then
      match s.issuedHeap with
      | [] => (s, batch)
      | (ts, workId) :: rest =>
        if (alookup s.issued workId).isNone ∨ (alookup s.pendingWrite workId).isSome then
          reissueLoopF fuel { s with issuedHeap := rest } now batchSize batch
        else if now - s.workTimeout > ts then
          match alookup s.issued workId with
          | some info =>
            if s.maxRetries ≠ -1 ∧ s.maxRetries ≤ info.retryCount then
              reissueLoopF fuel
                (internalCompleteWorkBatchF { s with issuedHeap := rest } now
                  [(workId, tombstoneJson workId info.content)])
                now batchSize batch
            else
              let t := trackIssuedWork { s with issuedHeap := rest } now info.content
                info.inputOffset (some workId)
              reissueLoopF fuel t.2 now batchSize (batch ++ [t.1])
          | none => (s, batch)
        else (s, batch)
    else (s, batch)

theorem reissueLoop_eq_fuel : ∀ (fuel : Nat) (s : DataTracker) (now : Int) (batchSize : Nat)
    (batch : List (Int × String)),
    s.issuedHeap.length + (batchSize - batch.length) ≤ fuel →
    reissueLoop s now batchSize batch = reissueLoopF fuel s now batchSize batch := by
  intro fuel
  induction fuel with
  | zero =>
    intro s now batchSize batch hle
    have hfull : ¬batch.length < batchSize := by omega
    rw [reissueLoop_full hfull]
    rfl
  | succ fuel ih =>
    intro s now batchSize batch hle
    by_cases hlt : batch.length < batchSize
    · cases hh : s.issuedHeap with
      | nil =>
        rw [reissueLoop_nil hlt hh]
        simp [reissueLoopF, hlt, hh]
      | cons head rest =>
        obtain ⟨ts, w⟩ := head
        have hlen : s.issuedHeap.length = rest.length + 1 := by rw [hh]; rfl
        by_cases hstale : (alookup s.issued w).isNone ∨ (alookup s.pendingWrite w).isSome
        · rw [reissueLoop_stale hlt hh hstale]
          simp only [reissueLoopF, if_pos hlt, hh, if_pos hstale]
          apply ih
          show rest.length + (batchSize - batch.length) ≤ fuel
          omega
        · by_cases hexp : now - s.workTimeout > ts
          · cases hinfo : alookup s.issued w with
            | none =>
              exfalso
              refine hstale (Or.inl ?_)
              rw [hinfo]
              rfl
            | some info =>
              have hpend : ¬(alookup s.pendingWrite w).isSome = true :=
                fun hp => hstale (Or.inr hp)
              by_cases hmr : s.maxRetries ≠ -1 ∧ s.maxRetries ≤ info.retryCount
              · rw [reissueLoop_tombstone hlt hh hstale hexp hinfo hmr]
                rw [internalCompleteWorkBatch_eval]
                simp only [reissueLoopF, if_pos hlt, hh, hinfo, Option.isNone_some,
                  Bool.false_eq_true, false_or, if_neg hpend, if_pos hexp, if_pos hmr]
                apply ih
                have hpre : (internalCompleteWorkBatchF
                    { s with issuedHeap := rest } now
                    [(w, tombstoneJson w info.content)]).issuedHeap = rest := by
                  rw [← internalCompleteWorkBatch_eval]
                  rw [internalCompleteWorkBatch_issuedHeap]
                rw [hpre]
                omega
              · rw [reissueLoop_reissue hlt hh hstale hexp hinfo hmr]
                simp only [reissueLoopF, if_pos hlt, hh, hinfo, Option.isNone_some,
                  Bool.false_eq_true, false_or, if_neg hpend, if_pos hexp, if_neg hmr]
                apply ih
                have hpre : (trackIssuedWork { s with issuedHeap := rest } now info.content
                    info.inputOffset (some w)).2.issuedHeap.length = rest.length + 1 := by
                  rw [trackIssuedWork_issuedHeap_length]
                simp only [List.length_append, List.length_singleton]
                omega
          · rw [reissueLoop_stop hlt hh hstale hexp]
            simp only [reissueLoopF, if_pos hlt, hh]
            rw [if_neg hstale, if_neg hexp]
    · rw [reissueLoop_full hlt]
      simp [reissueLoopF, hlt]

/-- The fresh-read pass with explicit fuel. -/
def freshLoopF : Nat → DataTracker → Int → Nat → List (Int × String) →
    DataTracker × List (Int × String)
  | 0, s, _, _, batch => (s, batch)
  | fuel+1, s, now, batchSize, batch =>
    if batch.length < batchSize then
      match s.inLines[s.inPos]? with
      | none => (s, batch)
      | some content =>
        let s1 := { s with inPos := s.inPos + 1 }
        let t := trackIssuedWork s1 now content (offAt s1.inLines s1.inPos) none
        freshLoopF fuel t.2 now batchSize (batch ++ [t.1])
    else (s, batch)

theorem freshLoop_eq_fuel : ∀ (fuel : Nat) (s : DataTracker) (now : Int) (batchSize : Nat)
    (batch : List (Int × String)),
    batchSize - batch.length ≤ fuel →
    freshLoop s now batchSize batch = freshLoopF fuel s now batchSize batch := by
  intro fuel
  induction fuel with
  | zero =>
    intro s now batchSize batch hle
    have hfull : ¬batch.length < batchSize := by omega
    rw [freshLoop_full hfull]
    rfl
  | succ fuel ih =>
    intro s now batchSize batch hle
    by_cases hlt : batch.length < batchSize
    · cases h : s.inLines[s.inPos]? with
      | none =>
        rw [freshLoop_eof hlt h]
        simp [freshLoopF, hlt, h]
      | some content =>
        rw [freshLoop_step hlt h]
        simp only [freshLoopF, if_pos hlt, h]
        apply ih
        simp only [List.length_append, List.length_singleton]
        omega
    · rw [freshLoop_full hlt]
      simp [freshLoopF, hlt]

/-- get_work_batch rendered through the fuel versions. -/
def getWorkBatchF (s : DataTracker) (now : Int) (batchSize : Nat) :
    DataTracker × Option (List (Int × String)) :=
  let r1 := reissueLoopF (s.issuedHeap.length + batchSize) s now batchSize []
  let r2 := freshLoopF batchSize r1.1 now batchSize r1.2
  (r2.1, if r2.2.isEmpty then none else some r2.2)

theorem getWorkBatch_eval (s : DataTracker) (now : Int) (batchSize : Nat) :
    getWorkBatch s now batchSize = getWorkBatchF s now batchSize := by
  simp only [getWorkBatch, getWorkBatchF]
  rw [reissueLoop_eq_fuel (s.issuedHeap.length + batchSize) s now batchSize []
    (by simp only [List.length_nil]; omega)]
  rw [freshLoop_eq_fuel batchSize _ now batchSize _ (by omega)]

theorem intRange_pairwise (n : Int) : (intRange n).Pairwise (fun a b => a < b) := by
  simp only [intRange]
  refine List.Pairwise.map _ ?_ (List.pairwise_lt_range _)
  intro a b hab
  exact_mod_cast hab

/-- C1.  Along any sequence of get_work_batch and complete_work_batch calls
from a fresh start, the output file always holds exactly one line per work
id from 0 through last_processed_id, in strictly increasing work-id order:
the prefix flush writes the line for an id only once every smaller id's line
is written.  The first component of each output entry is the ghost tag
recording which id the line was flushed for. -/
theorem c1_output_strict_prefix_order (workTimeout checkpointInterval maxRetries : Int)
    (inL : List String) (t0 : Int) (s : DataTracker)
    (h : Reachable (freshTracker workTimeout checkpointInterval maxRetries inL t0) s) :
    s.out.map Prod.fst = intRange (s.lastProcessedWorkId + 1) ∧
    (s.out.map Prod.fst).Chain' (fun a b => a < b) := by
  have hi := reachable_inv h
    (inv_freshTracker workTimeout checkpointInterval maxRetries inL t0)
  refine ⟨hi.2.2.1, ?_⟩
  rw [hi.2.2.1]
  exact (intRange_pairwise _).chain'

theorem c1_witness :
    ((completeWorkBatch (getWorkBatch (freshTracker 900 60 3 [r"a"] 0) 0 1).1
        1 [(0, r"A")]).out.map Prod.fst =
      intRange ((completeWorkBatch (getWorkBatch (freshTracker 900 60 3 [r"a"] 0) 0 1).1
        1 [(0, r"A")]).lastProcessedWorkId + 1)) ∧
    ((completeWorkBatch (getWorkBatch (freshTracker 900 60 3 [r"a"] 0) 0 1).1
        1 [(0, r"A")]).out.map Prod.fst).Chain' (fun a b => a < b) :=
  c1_output_strict_prefix_order 900 60 3 [r"a"] 0 _
    (Reachable.complete 1 [(0, r"A")] (Reachable.getWork 0 1 Reachable.refl))

/-- C7.  In every reachable state, next_work_id is at least
last_processed_id + 1, every issued work id exceeds last_processed_id, and
every pending-writes key is an issued key.  These state invariants hold
before and after every public operation, since Reachable is closed under
all of them. -/
theorem c7_state_invariants (workTimeout checkpointInterval maxRetries : Int)
    (inL : List String) (t0 : Int) (s : DataTracker)
    (h : Reachable (freshTracker workTimeout checkpointInterval maxRetries inL t0) s) :
    s.lastProcessedWorkId + 1 ≤ s.nextWorkId ∧
    (∀ w ∈ akeys s.issued, s.lastProcessedWorkId < w) ∧
    (∀ w ∈ akeys s.pendingWrite, w ∈ akeys s.issued) := by
  have hi := reachable_inv h
    (inv_freshTracker workTimeout checkpointInterval maxRetries inL t0)
  obtain ⟨⟨h1, h2, h3, h4, h5, h6⟩, _, _, _, _⟩ := hi
  refine ⟨h2, ?_, ?_⟩
  · intro w hw
    rcases List.mem_map.1 hw with ⟨p, hp, rfl⟩
    exact (h3 p hp).1
  · intro w hw
    rcases List.mem_map.1 hw with ⟨p, hp, rfl⟩
    obtain ⟨v, hv⟩ := Option.isSome_iff_exists.1 (h4 p hp)
    exact List.mem_map.2 ⟨(p.1, v), alookup_mem hv, rfl⟩

theorem c7_witness :
    ((getWorkBatch (freshTracker 900 60 3 [r"a", r"b"] 0) 0 1).1.lastProcessedWorkId + 1 ≤
      (getWorkBatch (freshTracker 900 60 3 [r"a", r"b"] 0) 0 1).1.nextWorkId) ∧
    (∀ w ∈ akeys (getWorkBatch (freshTracker 900 60 3 [r"a", r"b"] 0) 0 1).1.issued,
      (getWorkBatch (freshTracker 900 60 3 [r"a", r"b"] 0) 0 1).1.lastProcessedWorkId < w) ∧
    (∀ w ∈ akeys (getWorkBatch (freshTracker 900 60 3 [r"a", r"b"] 0) 0 1).1.pendingWrite,
      w ∈ akeys (getWorkBatch (freshTracker 900 60 3 [r"a", r"b"] 0) 0 1).1.issued) :=
  c7_state_invariants 900 60 3 [r"a", r"b"] 0 _ (Reachable.getWork 0 1 Reachable.refl)

/-- C9.  all_work_complete returns true exactly when the input reader has
no bytes left and pending-writes is empty; and it can return true while
work ids are still in the issued map, as the concrete one-item scenario
shows. -/
theorem c9_all_work_complete :
    (∀ s : DataTracker, s.inPos ≤ s.inLines.length →
      (allWorkComplete s = true ↔ (s.inPos = s.inLines.length ∧ s.pendingWrite = []))) ∧
    allWorkComplete (getWorkBatch (freshTracker 900 60 3 [r"m"] 0) 0 1).1 = true ∧
    (getWorkBatch (freshTracker 900 60 3 [r"m"] 0) 0 1).1.issued ≠ [] := by
  refine ⟨?_, ?_, ?_⟩
  · intro s hp
    simp only [allWorkComplete, Bool.and_eq_true, beq_iff_eq]
    constructor
    · rintro ⟨h1, h2⟩
      refine ⟨?_, List.length_eq_zero.1 h2⟩
      by_contra hne
      have hlt : s.inPos < s.inLines.length := lt_of_le_of_ne hp hne
      have := offAt_lt_fileBytes s.inLines s.inPos hlt
      omega
    · rintro ⟨h1, h2⟩
      refine ⟨?_, by simp [h2]⟩
      rw [h1, offAt_length_eq]
      omega
  · rw [getWorkBatch, reissueLoop_nil (by decide) rfl,
      freshLoop_step (by decide) (by rfl), freshLoop_full (by decide)]
    decide
  · rw [getWorkBatch, reissueLoop_nil (by decide) rfl,
      freshLoop_step (by decide) (by rfl), freshLoop_full (by decide)]
    decide

theorem c9_witness :
    allWorkComplete (freshTracker 900 60 3 ([] : List String) 0) = true ↔
      ((freshTracker 900 60 3 ([] : List String) 0).inPos =
        (freshTracker 900 60 3 ([] : List String) 0).inLines.length ∧
      (freshTracker 900 60 3 ([] : List String) 0).pendingWrite = []) :=
  c9_all_work_complete.1 _ (by decide)

theorem initState_out_snd (outL : List String) :
    ((outL.enum.map (fun p => ((p.1 : Int), p.2))).map Prod.snd) = outL := by
  rw [List.map_map]
  have : (Prod.snd ∘ fun p : Nat × String => ((p.1 : Int), p.2)) = Prod.snd := by
    funext p
    rfl
  rw [this, List.enum_map_snd]

theorem initState_out_length (outL : List String) :
    (outL.enum.map (fun p => ((p.1 : Int), p.2))).length = outL.length := by
  simp

/-- C8.  With a non-empty parsed checkpoint whose offsets are line
boundaries consistent with the files, the constructor advances
last_processed_id by exactly the number of output lines beyond
output_offset, consumes that many further input lines beyond the seek
target, keeps the checkpoint's input_offset, and sets next_work_id to the
advanced last_processed_id plus one; with no checkpoint it starts with
last_processed_id = -1, next_work_id = 0 and the input cursor at the file
start. -/
theorem c8_load_checkpoint_characterisation :
    (∀ (workTimeout checkpointInterval maxRetries : Int) (inL outL : List String)
      (cp : Checkpoint) (t0 : Int) (j k : Nat),
      cp.inputOffset = offAt inL j → j ≤ inL.length →
      cp.outputOffset = offAt outL k → k ≤ outL.length →
      j + (outL.length - k) ≤ inL.length →
      (mkTracker workTimeout checkpointInterval maxRetries inL outL
          (some (some cp)) t0).lastProcessedWorkId =
        cp.lastProcessedWorkId + ((outL.length - k : Nat) : Int) ∧
      (mkTracker workTimeout checkpointInterval maxRetries inL outL
          (some (some cp)) t0).nextWorkId =
        cp.lastProcessedWorkId + ((outL.length - k : Nat) : Int) + 1 ∧
      (mkTracker workTimeout checkpointInterval maxRetries inL outL
          (some (some cp)) t0).inPos = j + (outL.length - k) ∧
      (mkTracker workTimeout checkpointInterval maxRetries inL outL
          (some (some cp)) t0).inputOffset = cp.inputOffset) ∧
    (∀ (workTimeout checkpointInterval maxRetries : Int) (inL outL : List String) (t0 : Int),
      (mkTracker workTimeout checkpointInterval maxRetries inL outL
        none t0).lastProcessedWorkId = -1 ∧
      (mkTracker workTimeout checkpointInterval maxRetries inL outL none t0).nextWorkId = 0 ∧
      (mkTracker workTimeout checkpointInterval maxRetries inL outL none t0).inPos = 0) := by
  constructor
  · intro workTimeout checkpointInterval maxRetries inL outL cp t0 j k hin hj hout hk hcap
    simp only [mkTracker, loadCheckpoint, initState, Option.getD]
    rw [initState_out_snd, initState_out_length, hin, hout, seekIdx_offAt inL j hj,
      seekIdx_offAt outL k hk, consumeLines_eq _ _ _ (by omega)]
    refine ⟨?_, ?_, ?_, ?_⟩ <;> trivial
  · intro workTimeout checkpointInterval maxRetries inL outL t0
    simp only [mkTracker, loadCheckpoint, initState]
    refine ⟨?_, ?_, ?_⟩ <;> trivial

theorem c8_witness :
    ((mkTracker 900 60 3 [r"a", r"b", r"c"] [r"ra", r"rb"]
        (some (some ⟨0, 2, 3⟩)) 0).lastProcessedWorkId = 0 + ((2 - 1 : Nat) : Int) ∧
      (mkTracker 900 60 3 [r"a", r"b", r"c"] [r"ra", r"rb"]
        (some (some ⟨0, 2, 3⟩)) 0).nextWorkId = 0 + ((2 - 1 : Nat) : Int) + 1 ∧
      (mkTracker 900 60 3 [r"a", r"b", r"c"] [r"ra", r"rb"]
        (some (some ⟨0, 2, 3⟩)) 0).inPos = 1 + (2 - 1) ∧
      (mkTracker 900 60 3 [r"a", r"b", r"c"] [r"ra", r"rb"]
        (some (some ⟨0, 2, 3⟩)) 0).inputOffset = Checkpoint.inputOffset ⟨0, 2, 3⟩) ∧
    ((mkTracker 900 60 3 [r"a"] [r"ra"] none 0).lastProcessedWorkId = -1 ∧
      (mkTracker 900 60 3 [r"a"] [r"ra"] none 0).nextWorkId = 0 ∧
      (mkTracker 900 60 3 [r"a"] [r"ra"] none 0).inPos = 0) :=
  ⟨c8_load_checkpoint_characterisation.1 900 60 3 [r"a", r"b", r"c"] [r"ra", r"rb"]
      ⟨0, 2, 3⟩ 0 1 1 (by decide) (by decide) (by decide) (by decide) (by decide),
    c8_load_checkpoint_characterisation.2 900 60 3 [r"a"] [r"ra"] 0⟩

/-- C10.  A checkpoint file that exists, is non-empty, and fails to parse
does not make the constructor raise: the state degrades to the dict.get
defaults (-1, 0, 0), so every line of the existing output file counts as
extra, last_processed_id advances to the output line count minus one, that
many input lines are consumed, and input_offset stays 0. -/
theorem c10_corrupt_checkpoint_degrades (workTimeout checkpointInterval maxRetries : Int)
    (inL outL : List String) (t0 : Int) (hlen : outL.length ≤ inL.length) :
    (mkTracker workTimeout checkpointInterval maxRetries inL outL
        (some none) t0).lastProcessedWorkId = (outL.length : Int) - 1 ∧
    (mkTracker workTimeout checkpointInterval maxRetries inL outL
        (some none) t0).nextWorkId = (outL.length : Int) ∧
    (mkTracker workTimeout checkpointInterval maxRetries inL outL
        (some none) t0).inPos = outL.length ∧
    (mkTracker workTimeout checkpointInterval maxRetries inL outL
        (some none) t0).inputOffset = 0 := by
  simp only [mkTracker, loadCheckpoint, initState, Option.getD, defaultCheckpoint]
  rw [initState_out_snd, initState_out_length, seekIdx_zero, seekIdx_zero,
    consumeLines_eq _ _ _ (by omega)]
  refine ⟨?_, ?_, ?_, ?_⟩ <;> first | trivial | omega

theorem c10_witness :
    (mkTracker 900 60 3 [r"a", r"b", r"c", r"d", r"e"] [r"ra", r"rb", r"rc"]
        (some none) 0).lastProcessedWorkId = ((3 : Nat) : Int) - 1 ∧
    (mkTracker 900 60 3 [r"a", r"b", r"c", r"d", r"e"] [r"ra", r"rb", r"rc"]
        (some none) 0).nextWorkId = ((3 : Nat) : Int) ∧
    (mkTracker 900 60 3 [r"a", r"b", r"c", r"d", r"e"] [r"ra", r"rb", r"rc"]
        (some none) 0).inPos = 3 ∧
    (mkTracker 900 60 3 [r"a", r"b", r"c", r"d", r"e"] [r"ra", r"rb", r"rc"]
        (some none) 0).inputOffset = 0 :=
  c10_corrupt_checkpoint_degrades 900 60 3 [r"a", r"b", r"c", r"d", r"e"]
    [r"ra", r"rb", r"rc"] 0 (by decide)

/-- Concrete five-line input file used by the crash-and-restart scenarios. -/
def inL5 : List String := [r"a", r"b", r"c", r"d", r"e"]

/-- Concrete three-line output file left behind by a run that flushed the
results of work ids 0, 1 and 2 before being killed. -/
def outL3 : List String := [r"ra", r"rb", r"rc"]

/-- C2 counterexample.  With five input lines, three output lines already
written, and the checkpoint file absent, the code does not derive its state
from the output file length: the constructor takes the no-checkpoint branch,
last_processed_id stays -1 (the claim says 2), no input line is skipped
(the claim says 3 are), and the first get_work_batch issues work id 0 with
the first line again (the claim says it resumes at id 3). -/
theorem c2_counterexample_no_checkpoint_restart :
    (mkTracker 900 60 3 inL5 outL3 none 0).lastProcessedWorkId = -1 ∧
    (mkTracker 900 60 3 inL5 outL3 none 0).nextWorkId = 0 ∧
    (mkTracker 900 60 3 inL5 outL3 none 0).inPos = 0 ∧
    (getWorkBatch (mkTracker 900 60 3 inL5 outL3 none 0) 0 1).2 = some [(0, r"a")] ∧
    (mkTracker 900 60 3 inL5 outL3 none 0).lastProcessedWorkId ≠ 2 := by
  rw [getWorkBatch_eval]
  decide

/-- C2 amended.  The recovery-by-output-length behaviour of the claim does
hold when a checkpoint file from before the flushes exists — here the
initial checkpoint with last_processed_id = -1 and both offsets 0: on
restart the tracker counts the three output lines, advances
last_processed_id to 2, skips three input lines, resumes issuing at work
id 3, and after the remaining completions the output holds exactly the
five result lines in input order, one line per work id 0 through 4. -/
theorem c2_amended_restart_with_checkpoint :
    (mkTracker 900 60 3 inL5 outL3 (some (some ⟨-1, 0, 0⟩)) 0).lastProcessedWorkId = 2 ∧
    (mkTracker 900 60 3 inL5 outL3 (some (some ⟨-1, 0, 0⟩)) 0).nextWorkId = 3 ∧
    (mkTracker 900 60 3 inL5 outL3 (some (some ⟨-1, 0, 0⟩)) 0).inPos = 3 ∧
    (getWorkBatch (mkTracker 900 60 3 inL5 outL3 (some (some ⟨-1, 0, 0⟩)) 0) 0 2).2 =
      some [(3, r"d"), (4, r"e")] ∧
    (completeWorkBatch
        (getWorkBatch (mkTracker 900 60 3 inL5 outL3 (some (some ⟨-1, 0, 0⟩)) 0) 0 2).1 1
        [(3, r"rd"), (4, r"re")]).out.map Prod.snd =
      [r"ra", r"rb", r"rc", r"rd", r"re"] ∧
    (completeWorkBatch
        (getWorkBatch (mkTracker 900 60 3 inL5 outL3 (some (some ⟨-1, 0, 0⟩)) 0) 0 2).1 1
        [(3, r"rd"), (4, r"re")]).out.map Prod.fst = [0, 1, 2, 3, 4] ∧
    (completeWorkBatch
        (getWorkBatch (mkTracker 900 60 3 inL5 outL3 (some (some ⟨-1, 0, 0⟩)) 0) 0 2).1 1
        [(3, r"rd"), (4, r"re")]).lastProcessedWorkId = 4 := by
  rw [getWorkBatch_eval, completeWorkBatch_eval]
  decide

/-- C3 failing input.  Restart the tracker on the five-line input with
three output lines and the initial checkpoint (last = -1, offsets 0):
recovery advances last_processed_id to 2 but leaves the in-memory
input_offset at the stale checkpoint value 0.  The unconditional checkpoint
of close() then persists input_offset 0 together with
last_processed_id = 2 and output_offset 9, whereas the byte position after
the line of work id 2 is 6.  The code violates its own documented meaning
of input_offset (the start of the line after the last recorded work). -/
theorem c3_stale_input_offset_after_recovery :
    (close (mkTracker 900 60 3 inL5 outL3 (some (some ⟨-1, 0, 0⟩)) 0)).checkpointFile =
      some (some ⟨2, 0, 9⟩) ∧
    offAt inL5 3 = 6 ∧
    ((0 : Int) = 6 → False) := by
  decide

/-! Discard and acceptance characterisations of the completion path,
used for the idempotence and tombstone claims. -/

theorem completeOne_discard {s : DataTracker} {item : Int × String}
    (h : item.1 ≤ s.lastProcessedWorkId ∨ (alookup s.pendingWrite item.1).isSome ∨
      (alookup s.issued item.1).isNone) :
    completeOne s item = s := by
  unfold completeOne
  by_cases c1 : item.1 ≤ s.lastProcessedWorkId ∨ (alookup s.pendingWrite item.1).isSome
  · rw [if_pos c1]
  rw [if_neg c1]
  have c2 : (alookup s.issued item.1).isNone := by
    rcases h with h | h | h
    · exact absurd (Or.inl h) c1
    · exact absurd (Or.inr h) c1
    · exact h
  rw [if_pos c2]

theorem completeOne_accept {s : DataTracker} {item : Int × String}
    (h1 : ¬(item.1 ≤ s.lastProcessedWorkId ∨ (alookup s.pendingWrite item.1).isSome))
    (h2 : ¬(alookup s.issued item.1).isNone) :
    completeOne s item = { s with pendingWrite := aset s.pendingWrite item.1 item.2 } := by
  unfold completeOne
  rw [if_neg h1, if_neg h2]

theorem flushPendingWrites_noop {s : DataTracker}
    (h : alookup s.pendingWrite (s.lastProcessedWorkId + 1) = none) :
    flushPendingWrites s = s := by
  unfold flushPendingWrites
  rw [flushLoop_none h]
  simp

theorem internalComplete_fields_eq (s : DataTracker) (now : Int)
    (batch : List (Int × String)) :
    (internalCompleteWorkBatch s now batch).out =
      (flushPendingWrites (batch.foldl completeOne s)).out ∧
    (internalCompleteWorkBatch s now batch).lastProcessedWorkId =
      (flushPendingWrites (batch.foldl completeOne s)).lastProcessedWorkId ∧
    (internalCompleteWorkBatch s now batch).issued =
      (flushPendingWrites (batch.foldl completeOne s)).issued ∧
    (internalCompleteWorkBatch s now batch).pendingWrite =
      (flushPendingWrites (batch.foldl completeOne s)).pendingWrite := by
  simp only [internalCompleteWorkBatch]
  split
  · exact ⟨rfl, rfl, rfl, rfl⟩
  · exact ⟨rfl, rfl, rfl, rfl⟩

theorem internalComplete_discard {s : DataTracker} (now : Int) (batch : List (Int × String))
    (hflushed : alookup s.pendingWrite (s.lastProcessedWorkId + 1) = none)
    (hall : ∀ item ∈ batch, item.1 ≤ s.lastProcessedWorkId ∨
      (alookup s.pendingWrite item.1).isSome ∨ (alookup s.issued item.1).isNone) :
    (internalCompleteWorkBatch s now batch).out = s.out ∧
    (internalCompleteWorkBatch s now batch).lastProcessedWorkId = s.lastProcessedWorkId ∧
    (internalCompleteWorkBatch s now batch).issued = s.issued ∧
    (internalCompleteWorkBatch s now batch).pendingWrite = s.pendingWrite := by
  have hfold : batch.foldl completeOne s = s := by
    induction batch with
    | nil => rfl
    | cons b rest ih =>
      rw [List.foldl_cons, completeOne_discard (hall b (List.mem_cons_self b rest))]
      exact ih (fun item him => hall item (List.mem_cons_of_mem b him))
  obtain ⟨e1, e2, e3, e4⟩ := internalComplete_fields_eq s now batch
  rw [e1, e2, e3, e4, hfold, flushPendingWrites_noop hflushed]
  exact ⟨rfl, rfl, rfl, rfl⟩

theorem flushLoop_acc_mono (s : DataTracker) (acc : List (Int × String)) :
    ∃ ws : List (Int × String), (flushLoop s acc).2 = acc ++ ws := by
  induction s, acc using flushLoop.induct with
  | case1 s acc h =>
    rw [flushLoop_none h]
    exact ⟨[], by simp⟩
  | case2 s acc result h nextId newOffset ih =>
    rw [flushLoop_step h]
    obtain ⟨ws, hws⟩ := ih
    exact ⟨(s.lastProcessedWorkId + 1, result) :: ws, by rw [hws]; simp⟩

theorem flushLoop_last_mono (s : DataTracker) (acc : List (Int × String)) :
    s.lastProcessedWorkId ≤ (flushLoop s acc).1.lastProcessedWorkId := by
  induction s, acc using flushLoop.induct with
  | case1 s acc h =>
    rw [flushLoop_none h]
  | case2 s acc result h nextId newOffset ih =>
    rw [flushLoop_step h]
    refine le_trans ?_ ih
    show s.lastProcessedWorkId ≤ s.lastProcessedWorkId + 1
    omega

theorem flushLoop_pending_fate (s : DataTracker) (acc : List (Int × String)) (w : Int)
    (t : String) :
    alookup s.pendingWrite w = some t →
    alookup (flushLoop s acc).1.pendingWrite w = some t ∨
      (w ≤ (flushLoop s acc).1.lastProcessedWorkId ∧ (w, t) ∈ (flushLoop s acc).2) := by
  induction s, acc using flushLoop.induct with
  | case1 s acc h =>
    intro hw
    rw [flushLoop_none h]
    exact Or.inl hw
  | case2 s acc result h nextId newOffset ih =>
    intro hw
    rw [flushLoop_step h]
    by_cases he : w = s.lastProcessedWorkId + 1
    · have ht : t = result := by
        rw [he, h] at hw
        injection hw with hh
        exact hh.symm
      refine Or.inr ⟨?_, ?_⟩
      · refine le_trans ?_ (flushLoop_last_mono _ _)
        show w ≤ s.lastProcessedWorkId + 1
        omega
      · obtain ⟨ws, hws⟩ := flushLoop_acc_mono
          { s with pendingWrite := aerase s.pendingWrite (s.lastProcessedWorkId + 1),
                   lastProcessedWorkId := s.lastProcessedWorkId + 1,
                   inputOffset := match alookup s.issued (s.lastProcessedWorkId + 1) with
                     | some info => info.inputOffset
                     | none => s.inputOffset,
                   issued := aerase s.issued (s.lastProcessedWorkId + 1) }
          (acc ++ [(s.lastProcessedWorkId + 1, result)])
        rw [hws, he, ht]
        simp
    · have hw2 : alookup (aerase s.pendingWrite (s.lastProcessedWorkId + 1)) w = some t := by
        rw [alookup_aerase_ne _ _ _ he]
        exact hw
      exact ih hw2

/-- C5.  Completing the same (work_id, result) twice leaves the output
file, last_processed_id, issued map and pending-writes exactly as after
completing it once, whatever the first submission did (write, buffer, or
discard); and a completion whose work id was never issued is discarded
without changing any of those four fields. -/
theorem c5_duplicate_completion_idempotent (s : DataTracker) (now now2 : Int) (w : Int)
    (r : String) (hs : Inv s) :
    ((completeWorkBatch (completeWorkBatch s now [(w, r)]) now2 [(w, r)]).out =
        (completeWorkBatch s now [(w, r)]).out ∧
      (completeWorkBatch (completeWorkBatch s now [(w, r)]) now2 [(w, r)]).lastProcessedWorkId =
        (completeWorkBatch s now [(w, r)]).lastProcessedWorkId ∧
      (completeWorkBatch (completeWorkBatch s now [(w, r)]) now2 [(w, r)]).issued =
        (completeWorkBatch s now [(w, r)]).issued ∧
      (completeWorkBatch (completeWorkBatch s now [(w, r)]) now2 [(w, r)]).pendingWrite =
        (completeWorkBatch s now [(w, r)]).pendingWrite) ∧
    ((alookup s.issued w).isNone → s.lastProcessedWorkId < w →
      (alookup s.pendingWrite w).isNone →
      ((completeWorkBatch s now [(w, r)]).out = s.out ∧
       (completeWorkBatch s now [(w, r)]).lastProcessedWorkId = s.lastProcessedWorkId ∧
       (completeWorkBatch s now [(w, r)]).issued = s.issued ∧
       (completeWorkBatch s now [(w, r)]).pendingWrite = s.pendingWrite)) := by
  obtain ⟨hstruct, hflushed, hout, hsort, hpos⟩ := hs
  constructor
  · show (internalCompleteWorkBatch (internalCompleteWorkBatch s now [(w, r)]) now2
      [(w, r)]).out = _ ∧ _
    by_cases hd : w ≤ s.lastProcessedWorkId ∨ (alookup s.pendingWrite w).isSome ∨
      (alookup s.issued w).isNone
    · obtain ⟨e1, e2, e3, e4⟩ := internalComplete_discard now [(w, r)] hflushed
        (by intro item him
            rw [List.mem_singleton] at him
            subst him
            simpa using hd)
      refine internalComplete_discard now2 [(w, r)] ?_ ?_
      · rw [e4, e2]
        exact hflushed
      · intro item him
        rw [List.mem_singleton] at him
        subst him
        rw [e2, e4, e3]
        simpa using hd
    · push_neg at hd
      obtain ⟨hgt, hpn, hisn⟩ := hd
      have hacc : completeOne s (w, r) =
          { s with pendingWrite := aset s.pendingWrite w r } :=
        completeOne_accept (by
          push_neg
          exact ⟨by omega, by simpa using hpn⟩) hisn
      have hfold1 : [(w, r)].foldl completeOne s =
          { s with pendingWrite := aset s.pendingWrite w r } := by
        rw [List.foldl_cons, List.foldl_nil, hacc]
      obtain ⟨e1, e2, e3, e4⟩ := internalComplete_fields_eq s now [(w, r)]
      rw [hfold1] at e1 e2 e3 e4
      have hw : alookup (aset s.pendingWrite w r) w = some r := alookup_aset_self _ _ _
      have hfate := flushLoop_pending_fate
        { s with pendingWrite := aset s.pendingWrite w r } [] w r hw
      have hstruct2 : StructInv { s with pendingWrite := aset s.pendingWrite w r } := by
        rw [← hacc]
        exact structInv_completeOne hstruct (w, r)
      obtain ⟨i1, i2, i3, i4, i5⟩ := flushLoop_spec
        { s with pendingWrite := aset s.pendingWrite w r } [] hstruct2
      have hdis : w ≤ (internalCompleteWorkBatch s now [(w, r)]).lastProcessedWorkId ∨
          (alookup (internalCompleteWorkBatch s now [(w, r)]).pendingWrite w).isSome := by
        rw [e2, e4]
        rcases hfate with hf | ⟨hf, _⟩
        · right
          show (alookup (flushLoop { s with pendingWrite := aset s.pendingWrite w r }
            []).1.pendingWrite w).isSome
          rw [hf]
          rfl
        · exact Or.inl hf
      refine internalComplete_discard now2 [(w, r)] ?_ ?_
      · rw [e4, e2]
        exact i2
      · intro item him
        rw [List.mem_singleton] at him
        subst him
        rcases hdis with hf | hf
        · exact Or.inl (by simpa using hf)
        · exact Or.inr (Or.inl (by simpa using hf))
  · intro hisn hgt hpn
    exact internalComplete_discard now [(w, r)] hflushed
      (by intro item him
          rw [List.mem_singleton] at him
          subst him
          exact Or.inr (Or.inr (by simpa using hisn)))

theorem c5_witness :
    (completeWorkBatch (completeWorkBatch (freshTracker 900 60 3 [r"a"] 0) 0 [(0, r"A")])
        0 [(0, r"A")]).out =
      (completeWorkBatch (freshTracker 900 60 3 [r"a"] 0) 0 [(0, r"A")]).out :=
  (c5_duplicate_completion_idempotent (freshTracker 900 60 3 [r"a"] 0) 0 0 0 (r"A")
    (inv_freshTracker 900 60 3 [r"a"] 0)).1.1

theorem trackIssuedWork_snd_some {s : DataTracker} {w : Int} {info : WorkInfo}
    (h : alookup s.issued w = some info) (when : Int) (content : String) (off : Int) :
    (trackIssuedWork s when content off (some w)).2 =
      { s with expiredReissues := s.expiredReissues + 1,
               issued := aset s.issued w
                 ⟨info.content, info.inputOffset, info.retryCount + 1⟩,
               issuedHeap := heapPush s.issuedHeap (when, w) } := by
  simp only [trackIssuedWork, h]

/-- C6.  The reissue pass inspects heap entries in ascending
(issued_at, work_id) order — the heap is sorted under the lexicographic
tuple order, so ties in issued_at are broken by ascending work id — and at
the minimal entry it discards a stale entry (id not issued, or pending)
without reissuing it, stops the pass at the first live entry whose age is
at most work_timeout, and reissues an expired live entry, incrementing its
retry count and pushing it back with its issue time reset to now. -/
theorem c6_reissue_pass_order :
    (∀ (workTimeout checkpointInterval maxRetries : Int) (inL : List String) (t0 : Int)
      (s : DataTracker),
      Reachable (freshTracker workTimeout checkpointInterval maxRetries inL t0) s →
      List.Sorted heapLe s.issuedHeap) ∧
    (∀ (s : DataTracker) (now : Int) (batchSize : Nat) (batch : List (Int × String))
      (ts w : Int) (rest : List (Int × Int)),
      batch.length < batchSize → s.issuedHeap = (ts, w) :: rest →
      (((alookup s.issued w).isNone ∨ (alookup s.pendingWrite w).isSome) →
        reissueLoop s now batchSize batch =
          reissueLoop { s with issuedHeap := rest } now batchSize batch) ∧
      (∀ info : WorkInfo, alookup s.issued w = some info →
        alookup s.pendingWrite w = none → now - ts ≤ s.workTimeout →
        reissueLoop s now batchSize batch = (s, batch)) ∧
      (∀ info : WorkInfo, alookup s.issued w = some info →
        alookup s.pendingWrite w = none → s.workTimeout < now - ts →
        (s.maxRetries = -1 ∨ info.retryCount < s.maxRetries) →
        reissueLoop s now batchSize batch =
          reissueLoop
            { s with issuedHeap := heapPush rest (now, w),
                     issued := aset s.issued w
                       ⟨info.content, info.inputOffset, info.retryCount + 1⟩,
                     expiredReissues := s.expiredReissues + 1 }
            now batchSize (batch ++ [(w, info.content)]))) := by
  constructor
  · intro workTimeout checkpointInterval maxRetries inL t0 s h
    exact (reachable_inv h
      (inv_freshTracker workTimeout checkpointInterval maxRetries inL t0)).2.2.2.1
  · intro s now batchSize batch ts w rest hlt hheap
    refine ⟨?_, ?_, ?_⟩
    · intro hstale
      exact reissueLoop_stale hlt hheap hstale
    · intro info hinfo hpend hfresh
      refine reissueLoop_stop hlt hheap ?_ (by omega)
      rintro (hn | hp)
      · rw [hinfo] at hn
        exact absurd hn (by simp)
      · rw [hpend] at hp
        exact absurd hp (by simp)
    · intro info hinfo hpend hexp hcap
      have hlive : ¬((alookup s.issued w).isNone ∨ (alookup s.pendingWrite w).isSome) := by
        rintro (hn | hp)
        · rw [hinfo] at hn
          exact absurd hn (by simp)
        · rw [hpend] at hp
          exact absurd hp (by simp)
      have hmr : ¬(s.maxRetries ≠ -1 ∧ s.maxRetries ≤ info.retryCount) := by
        rintro ⟨hne, hle⟩
        rcases hcap with hc | hc
        · exact hne hc
        · omega
      rw [reissueLoop_reissue hlt hheap hlive (by omega) hinfo hmr]
      rw [trackIssuedWork_fst_some]
      rw [trackIssuedWork_snd_some (s := { s with issuedHeap := rest }) hinfo now
        info.content info.inputOffset]

/-- A concrete in-flight state used to exercise the reissue pass: one
issued, uncompleted item of work id 0 issued at time 0. -/
def sampleTracker : DataTracker :=
  { workTimeout := 900, checkpointInterval := 60, maxRetries := 3,
    lastProcessedWorkId := -1, nextWorkId := 1, inputOffset := 2,
    lastCheckpointTime := 0, expiredReissues := 0,
    issued := [(0, ⟨r"a", 2, 0⟩)], issuedHeap := [(0, 0)], pendingWrite := [],
    inLines := [r"a"], inPos := 1, out := [], checkpointFile := none }

theorem c6_witness :
    List.Sorted heapLe (getWorkBatch (freshTracker 900 60 3 [r"a", r"b"] 0) 0 2).1.issuedHeap ∧
    reissueLoop sampleTracker 0 1 [] = (sampleTracker, []) :=
  ⟨c6_reissue_pass_order.1 900 60 3 [r"a", r"b"] 0 _ (Reachable.getWork 0 2 Reachable.refl),
    (c6_reissue_pass_order.2 sampleTracker 0 1 [] 0 0 [] (by decide) (by decide)).2.1
      ⟨r"a", 2, 0⟩ (by decide) (by decide) (by decide)⟩

/-! Tracking a tombstoned work id through the rest of a get_work_batch
call: once its result is recorded (pending or written) and the id is
shielded (no longer live in the issued map, or sitting in pending-writes),
no later step of the call can issue it again or lose the record. -/

/-- The record-and-shield property for work id `w` with result `t`. -/
def Protected (w : Int) (t : String) (s : DataTracker) : Prop :=
  (alookup s.pendingWrite w = some t ∨ (w, t) ∈ s.out) ∧
  (alookup s.issued w = none ∨ (alookup s.pendingWrite w).isSome) ∧
  w < s.nextWorkId

theorem alookup_aerase_of_none {α : Type} {m : List (Int × α)} {w : Int} (k : Int)
    (h : alookup m w = none) : alookup (aerase m k) w = none := by
  by_cases he : w = k
  · rw [he, alookup_aerase_self]
  · rw [alookup_aerase_ne _ _ _ he]
    exact h

theorem protected_completeOne {w : Int} {t : String} {s : DataTracker}
    (hp : Protected w t s) (item : Int × String) :
    Protected w t (completeOne s item) := by
  obtain ⟨hrec, hsh, hnext⟩ := hp
  by_cases c1 : item.1 ≤ s.lastProcessedWorkId ∨ (alookup s.pendingWrite item.1).isSome
  · rw [completeOne_discard (by tauto)]
    exact ⟨hrec, hsh, hnext⟩
  by_cases c2 : (alookup s.issued item.1).isNone
  · rw [completeOne_discard (Or.inr (Or.inr c2))]
    exact ⟨hrec, hsh, hnext⟩
  rw [completeOne_accept c1 c2]
  have hne : w ≠ item.1 := by
    intro he
    rcases hsh with hn | hs
    · rw [he] at hn
      exact c2 (by rw [hn]; rfl)
    · rw [he] at hs
      exact c1 (Or.inr hs)
  refine ⟨?_, ?_, hnext⟩
  · rcases hrec with hr | hr
    · left
      show alookup (aset s.pendingWrite item.1 item.2) w = some t
      rw [alookup_aset_ne _ _ _ _ hne]
      exact hr
    · exact Or.inr hr
  · rcases hsh with hn | hs
    · exact Or.inl hn
    · right
      show (alookup (aset s.pendingWrite item.1 item.2) w).isSome
      rw [alookup_aset_ne _ _ _ _ hne]
      exact hs

theorem flushLoop_protected (s : DataTracker) (acc : List (Int × String)) (w : Int)
    (t : String) :
    (alookup s.pendingWrite w = some t ∨ (w, t) ∈ s.out ++ acc) →
    (alookup s.issued w = none ∨ (alookup s.pendingWrite w).isSome) →
    (alookup (flushLoop s acc).1.pendingWrite w = some t ∨
      (w, t) ∈ (flushLoop s acc).1.out ++ (flushLoop s acc).2) ∧
    (alookup (flushLoop s acc).1.issued w = none ∨
      (alookup (flushLoop s acc).1.pendingWrite w).isSome) := by
  induction s, acc using flushLoop.induct with
  | case1 s acc h =>
    intro hrec hsh
    rw [flushLoop_none h]
    exact ⟨hrec, hsh⟩
  | case2 s acc result h nextId newOffset ih =>
    intro hrec hsh
    rw [flushLoop_step h]
    by_cases he : w = s.lastProcessedWorkId + 1
    · refine ih ?_ ?_
      · right
        rcases hrec with hr | hr
        · have ht : t = result := by
            rw [he, h] at hr
            injection hr with hh
            exact hh.symm
          show (w, t) ∈ s.out ++ (acc ++ [(s.lastProcessedWorkId + 1, result)])
          rw [he, ht]
          simp
        · show (w, t) ∈ s.out ++ (acc ++ [(s.lastProcessedWorkId + 1, result)])
          rcases List.mem_append.1 hr with hr | hr
          · simp [hr]
          · simp [hr]
      · left
        show alookup (aerase s.issued (s.lastProcessedWorkId + 1)) w = none
        rw [he, alookup_aerase_self]
    · refine ih ?_ ?_
      · rcases hrec with hr | hr
        · left
          show alookup (aerase s.pendingWrite (s.lastProcessedWorkId + 1)) w = some t
          rw [alookup_aerase_ne _ _ _ he]
          exact hr
        · right
          show (w, t) ∈ s.out ++ (acc ++ [(s.lastProcessedWorkId + 1, result)])
          rcases List.mem_append.1 hr with hr | hr
          · simp [hr]
          · simp [hr]
      · rcases hsh with hn | hs
        · left
          show alookup (aerase s.issued (s.lastProcessedWorkId + 1)) w = none
          exact alookup_aerase_of_none _ hn
        · right
          show (alookup (aerase s.pendingWrite (s.lastProcessedWorkId + 1)) w).isSome
          rw [alookup_aerase_ne _ _ _ he]
          exact hs

theorem protected_flushPendingWrites {w : Int} {t : String} {s : DataTracker}
    (hp : Protected w t s) : Protected w t (flushPendingWrites s) := by
  obtain ⟨hrec, hsh, hnext⟩ := hp
  have h1 := flushLoop_protected s [] w t (by simpa using hrec) hsh
  have h2 := (flushLoop_fields s []).1
  refine ⟨?_, ?_, ?_⟩
  · show alookup (flushLoop s []).1.pendingWrite w = some t ∨
      (w, t) ∈ (flushLoop s []).1.out ++ (flushLoop s []).2
    exact h1.1
  · exact h1.2
  · show w < (flushLoop s []).1.nextWorkId
    rw [h2]
    exact hnext

theorem protected_internalComplete {w : Int} {t : String} {s : DataTracker}
    (hp : Protected w t s) (now : Int) (batch : List (Int × String)) :
    Protected w t (internalCompleteWorkBatch s now batch) := by
  have h1 : Protected w t (batch.foldl completeOne s) := by
    induction batch generalizing s with
    | nil => exact hp
    | cons b rest ih => exact ih (protected_completeOne hp b)
  have h2 := protected_flushPendingWrites h1
  obtain ⟨hrec, hsh, hnext⟩ := h2
  simp only [internalCompleteWorkBatch]
  split
  · exact ⟨hrec, hsh, hnext⟩
  · exact ⟨hrec, hsh, hnext⟩

theorem protected_trackIssuedWork {w : Int} {t : String} {s : DataTracker}
    (hp : Protected w t s) (when : Int) (content : String) (off : Int)
    (workIdOpt : Option Int) :
    Protected w t (trackIssuedWork s when content off workIdOpt).2 := by
  obtain ⟨hrec, hsh, hnext⟩ := hp
  cases workIdOpt with
  | none =>
    refine ⟨hrec, ?_, show w < s.nextWorkId + 1 from by omega⟩
    rcases hsh with hn | hs
    · left
      show alookup (aset s.issued s.nextWorkId ⟨content, off, 0⟩) w = none
      rw [alookup_aset_ne _ _ _ _ (by omega : w ≠ s.nextWorkId)]
      exact hn
    · exact Or.inr hs
  | some w2 =>
    cases h : alookup s.issued w2 with
    | none =>
      simp only [trackIssuedWork, h]
      exact ⟨hrec, hsh, hnext⟩
    | some info =>
      simp only [trackIssuedWork, h]
      refine ⟨hrec, ?_, hnext⟩
      rcases hsh with hn | hs
      · left
        have hne : w ≠ w2 := by
          intro he
          rw [← he, hn] at h
          exact Option.noConfusion h
        show alookup (aset s.issued w2
          ⟨info.content, info.inputOffset, info.retryCount + 1⟩) w = none
        rw [alookup_aset_ne _ _ _ _ hne]
        exact hn
      · exact Or.inr hs

theorem reissueLoop_protected (s : DataTracker) (now : Int) (batchSize : Nat)
    (batch : List (Int × String)) (w : Int) (t : String) :
    Protected w t s → (∀ item ∈ batch, item.1 ≠ w) →
    Protected w t (reissueLoop s now batchSize batch).1 ∧
    (∀ item ∈ (reissueLoop s now batchSize batch).2, item.1 ≠ w) := by
  induction s, now, batchSize, batch using reissueLoop.induct with
  | case1 s now batchSize batch hlt h =>
    intro hp hb
    rw [reissueLoop_nil hlt h]
    exact ⟨hp, hb⟩
  | case2 s now batchSize batch hlt ts workId rest h hstale ih =>
    intro hp hb
    rw [reissueLoop_stale hlt h hstale]
    refine ih ?_ hb
    exact ⟨hp.1, hp.2.1, hp.2.2⟩
  | case3 s now batchSize batch hlt ts workId rest h hstale hexp info hinfo hmr ih =>
    intro hp hb
    rw [reissueLoop_tombstone hlt h hstale hexp hinfo hmr]
    refine ih (protected_internalComplete (s := { s with issuedHeap := rest }) ?_ now
      [(workId, tombstoneJson workId info.content)]) hb
    exact ⟨hp.1, hp.2.1, hp.2.2⟩
  | case4 s now batchSize batch hlt ts workId rest h hstale hexp info hinfo hmr t2 ih =>
    intro hp hb
    rw [reissueLoop_reissue hlt h hstale hexp hinfo hmr]
    have hne : workId ≠ w := by
      intro he
      rcases hp.2.1 with hn | hs
      · rw [← he] at hn
        rw [hinfo] at hn
        exact absurd hn (by simp)
      · rw [← he] at hs
        exact hstale (Or.inr hs)
    refine ih (protected_trackIssuedWork (s := { s with issuedHeap := rest })
      ⟨hp.1, hp.2.1, hp.2.2⟩ now info.content info.inputOffset (some workId)) ?_
    intro item him
    rcases List.mem_append.1 him with him | him
    · exact hb item him
    · rw [List.mem_singleton] at him
      subst him
      rw [trackIssuedWork_fst_some]
      exact hne
  | case5 s now batchSize batch hlt ts workId rest h hstale hexp hnone =>
    intro hp hb
    exact absurd (Or.inl (by rw [hnone]; rfl)) hstale
  | case6 s now batchSize batch hlt ts workId rest h hstale hexp =>
    intro hp hb
    rw [reissueLoop_stop hlt h hstale hexp]
    exact ⟨hp, hb⟩
  | case7 s now batchSize batch hlt =>
    intro hp hb
    rw [reissueLoop_full hlt]
    exact ⟨hp, hb⟩

theorem freshLoop_protected (s : DataTracker) (now : Int) (batchSize : Nat)
    (batch : List (Int × String)) (w : Int) (t : String) :
    Protected w t s → (∀ item ∈ batch, item.1 ≠ w) →
    Protected w t (freshLoop s now batchSize batch).1 ∧
    (∀ item ∈ (freshLoop s now batchSize batch).2, item.1 ≠ w) := by
  induction s, now, batchSize, batch using freshLoop.induct with
  | case1 s now batchSize batch hlt h =>
    intro hp hb
    rw [freshLoop_eof hlt h]
    exact ⟨hp, hb⟩
  | case2 s now batchSize batch hlt content h s1 t2 ih =>
    intro hp hb
    rw [freshLoop_step hlt h]
    have hp1 : Protected w t { s with inPos := s.inPos + 1 } :=
      ⟨hp.1, hp.2.1, hp.2.2⟩
    refine ih (protected_trackIssuedWork hp1 now content _ none) ?_
    intro item him
    rcases List.mem_append.1 him with him | him
    · exact hb item him
    · rw [List.mem_singleton] at him
      subst him
      show s.nextWorkId ≠ w
      have := hp.2.2
      omega
  | case3 s now batchSize batch hlt =>
    intro hp hb
    rw [freshLoop_full hlt]
    exact ⟨hp, hb⟩

theorem trackIssuedWork_pw_out (s : DataTracker) (when : Int) (content : String)
    (off : Int) (workIdOpt : Option Int) :
    (trackIssuedWork s when content off workIdOpt).2.pendingWrite = s.pendingWrite ∧
    (trackIssuedWork s when content off workIdOpt).2.out = s.out := by
  cases workIdOpt with
  | none => exact ⟨rfl, rfl⟩
  | some w => cases h : alookup s.issued w <;> simp [trackIssuedWork, h]

theorem reissueLoop_no_tombstone (s : DataTracker) (now : Int) (batchSize : Nat)
    (batch : List (Int × String)) :
    s.maxRetries = -1 →
    (reissueLoop s now batchSize batch).1.pendingWrite = s.pendingWrite ∧
    (reissueLoop s now batchSize batch).1.out = s.out := by
  induction s, now, batchSize, batch using reissueLoop.induct with
  | case1 s now batchSize batch hlt h =>
    intro hmr
    rw [reissueLoop_nil hlt h]
    exact ⟨rfl, rfl⟩
  | case2 s now batchSize batch hlt ts workId rest h hstale ih =>
    intro hmr
    rw [reissueLoop_stale hlt h hstale]
    exact ih hmr
  | case3 s now batchSize batch hlt ts workId rest h hstale hexp info hinfo hmr2 ih =>
    intro hmr
    exact absurd hmr hmr2.1
  | case4 s now batchSize batch hlt ts workId rest h hstale hexp info hinfo hmr2 t2 ih =>
    intro hmr
    rw [reissueLoop_reissue hlt h hstale hexp hinfo hmr2]
    obtain ⟨hq1, hq2⟩ := trackIssuedWork_pw_out { s with issuedHeap := rest } now
      info.content info.inputOffset (some workId)
    have hmr3 : (trackIssuedWork { s with issuedHeap := rest } now info.content
        info.inputOffset (some workId)).2.maxRetries = -1 := by
      cases h2 : alookup ({ s with issuedHeap := rest } : DataTracker).issued workId with
      | none => simp only [trackIssuedWork, h2]; exact hmr
      | some info2 => simp only [trackIssuedWork, h2]; exact hmr
    obtain ⟨hr1, hr2⟩ := ih hmr3
    exact ⟨hr1.trans hq1, hr2.trans hq2⟩
  | case5 s now batchSize batch hlt ts workId rest h hstale hexp hnone =>
    intro hmr
    exact absurd (Or.inl (by rw [hnone]; rfl)) hstale
  | case6 s now batchSize batch hlt ts workId rest h hstale hexp =>
    intro hmr
    rw [reissueLoop_stop hlt h hstale hexp]
    exact ⟨rfl, rfl⟩
  | case7 s now batchSize batch hlt =>
    intro hmr
    rw [reissueLoop_full hlt]
    exact ⟨rfl, rfl⟩

theorem freshLoop_pw_out (s : DataTracker) (now : Int) (batchSize : Nat)
    (batch : List (Int × String)) :
    (freshLoop s now batchSize batch).1.pendingWrite = s.pendingWrite ∧
    (freshLoop s now batchSize batch).1.out = s.out := by
  induction s, now, batchSize, batch using freshLoop.induct with
  | case1 s now batchSize batch hlt h =>
    rw [freshLoop_eof hlt h]
    exact ⟨rfl, rfl⟩
  | case2 s now batchSize batch hlt content h s1 t2 ih =>
    rw [freshLoop_step hlt h]
    obtain ⟨hq1, hq2⟩ := trackIssuedWork_pw_out { s with inPos := s.inPos + 1 } now
      content (offAt s.inLines (s.inPos + 1)) none
    obtain ⟨hr1, hr2⟩ := ih
    exact ⟨hr1.trans hq1, hr2.trans hq2⟩
  | case3 s now batchSize batch hlt =>
    rw [freshLoop_full hlt]
    exact ⟨rfl, rfl⟩

/-- C4.  During the reissue pass, an expired live item whose retry count
has reached a non-negative max_retries is not added to the returned batch;
instead its tombstone JSON is completed through the internal completion
path, so it ends up in pending-writes or, after the prefix flush, in the
output file, exactly like a normal result.  And with max_retries = -1 no
item is ever tombstoned: get_work_batch never changes pending-writes or
the output file. -/
theorem c4_max_retries_tombstone :
    (∀ (s : DataTracker) (now : Int) (batchSize : Nat) (ts w : Int)
      (rest : List (Int × Int)) (info : WorkInfo),
      Inv s → 0 < batchSize →
      s.issuedHeap = (ts, w) :: rest →
      alookup s.issued w = some info →
      alookup s.pendingWrite w = none →
      now - s.workTimeout > ts →
      0 ≤ s.maxRetries → s.maxRetries ≤ info.retryCount →
      (∀ b ∈ (getWorkBatch s now batchSize).2.getD [], b.1 ≠ w) ∧
      (alookup (getWorkBatch s now batchSize).1.pendingWrite w =
          some (tombstoneJson w info.content) ∨
        (w, tombstoneJson w info.content) ∈ (getWorkBatch s now batchSize).1.out)) ∧
    (∀ (s : DataTracker) (now : Int) (batchSize : Nat), s.maxRetries = -1 →
      (getWorkBatch s now batchSize).1.pendingWrite = s.pendingWrite ∧
      (getWorkBatch s now batchSize).1.out = s.out) := by
  constructor
  · intro s now batchSize ts w rest info hInv hbs hheap hinfo hpend hexp hmr0 hmrle
    obtain ⟨⟨h1, h2, h3, h4, h5, h6⟩, hflushed, hout, hsort, hposn⟩ := hInv
    have hbounds := h3 _ (alookup_mem hinfo)
    have hlive : ¬((alookup s.issued w).isNone ∨ (alookup s.pendingWrite w).isSome) := by
      rintro (hn | hp)
      · rw [hinfo] at hn
        exact absurd hn (by simp)
      · rw [hpend] at hp
        exact absurd hp (by simp)
    have hmr : s.maxRetries ≠ -1 ∧ s.maxRetries ≤ info.retryCount := ⟨by omega, hmrle⟩
    have hacc : completeOne { s with issuedHeap := rest }
        (w, tombstoneJson w info.content) =
        { s with issuedHeap := rest,
                 pendingWrite := aset s.pendingWrite w (tombstoneJson w info.content) } := by
      refine completeOne_accept ?_ ?_
      · rintro (hle | hps)
        · have hle2 : w ≤ s.lastProcessedWorkId := hle
          have := hbounds.1
          omega
        · have hps2 : (alookup s.pendingWrite w).isSome = true := hps
          rw [hpend] at hps2
          exact absurd hps2 (by simp)
      · intro hn
        have hn2 : (alookup s.issued w).isNone = true := hn
        rw [hinfo] at hn2
        exact absurd hn2 (by simp)
    have hfold : [(w, tombstoneJson w info.content)].foldl completeOne
        { s with issuedHeap := rest } =
        { s with issuedHeap := rest,
                 pendingWrite := aset s.pendingWrite w (tombstoneJson w info.content) } := by
      rw [List.foldl_cons, List.foldl_nil, hacc]
    have hprot0 : Protected w (tombstoneJson w info.content)
        { s with issuedHeap := rest,
                 pendingWrite := aset s.pendingWrite w (tombstoneJson w info.content) } := by
      refine ⟨Or.inl ?_, Or.inr ?_, hbounds.2⟩
      · exact alookup_aset_self _ _ _
      · show (alookup (aset s.pendingWrite w (tombstoneJson w info.content)) w).isSome
        rw [alookup_aset_self]
        rfl
    have hprotIC : Protected w (tombstoneJson w info.content)
        (internalCompleteWorkBatch { s with issuedHeap := rest } now
          [(w, tombstoneJson w info.content)]) := by
      obtain ⟨hrec, hsh, hnx⟩ := protected_flushPendingWrites hprot0
      simp only [internalCompleteWorkBatch, hfold]
      split
      · exact ⟨hrec, hsh, hnx⟩
      · exact ⟨hrec, hsh, hnx⟩
    simp only [getWorkBatch]
    rw [reissueLoop_tombstone (by simpa using hbs) hheap hlive hexp hinfo hmr]
    obtain ⟨hp1, hb1⟩ := reissueLoop_protected
      (internalCompleteWorkBatch { s with issuedHeap := rest } now
        [(w, tombstoneJson w info.content)])
      now batchSize [] w (tombstoneJson w info.content) hprotIC (by simp)
    obtain ⟨hp2, hb2⟩ := freshLoop_protected _ now batchSize _ w
      (tombstoneJson w info.content) hp1 hb1
    constructor
    · intro b hbmem
      by_cases hemp : (freshLoop
          (reissueLoop (internalCompleteWorkBatch { s with issuedHeap := rest } now
            [(w, tombstoneJson w info.content)]) now batchSize []).1
          now batchSize
          (reissueLoop (internalCompleteWorkBatch { s with issuedHeap := rest } now
            [(w, tombstoneJson w info.content)]) now batchSize []).2).2.isEmpty
      · rw [if_pos hemp] at hbmem
        simp at hbmem
      · rw [if_neg hemp] at hbmem
        simp only [Option.getD_some] at hbmem
        exact hb2 b hbmem
    · exact hp2.1
  · intro s now batchSize hmr
    simp only [getWorkBatch]
    obtain ⟨r1p, r1o⟩ := reissueLoop_no_tombstone s now batchSize [] hmr
    obtain ⟨r2p, r2o⟩ := freshLoop_pw_out (reissueLoop s now batchSize []).1 now batchSize
      (reissueLoop s now batchSize []).2
    exact ⟨r2p.trans r1p, r2o.trans r1o⟩

/-- A concrete state with one expired in-flight item whose retry count has
reached max_retries = 0: work id 0, issued at time 0, timeout 1. -/
def sampleTracker2 : DataTracker :=
  { workTimeout := 1, checkpointInterval := 1000, maxRetries := 0,
    lastProcessedWorkId := -1, nextWorkId := 1, inputOffset := 4,
    lastCheckpointTime := 0, expiredReissues := 0,
    issued := [(0, ⟨r"bad", 4, 0⟩)], issuedHeap := [(0, 0)], pendingWrite := [],
    inLines := [r"bad"], inPos := 1, out := [], checkpointFile := none }

theorem c4_witness :
    ((∀ b ∈ (getWorkBatch sampleTracker2 5 1).2.getD [], b.1 ≠ 0) ∧
      (alookup (getWorkBatch sampleTracker2 5 1).1.pendingWrite 0 =
          some (tombstoneJson 0 (r"bad")) ∨
        (0, tombstoneJson 0 (r"bad")) ∈ (getWorkBatch sampleTracker2 5 1).1.out)) ∧
    ((getWorkBatch (freshTracker 900 60 (-1) [r"a"] 0) 0 1).1.pendingWrite =
        (freshTracker 900 60 (-1) [r"a"] 0).pendingWrite ∧
      (getWorkBatch (freshTracker 900 60 (-1) [r"a"] 0) 0 1).1.out =
        (freshTracker 900 60 (-1) [r"a"] 0).out) :=
  ⟨c4_max_retries_tombstone.1 sampleTracker2 5 1 0 0 [] ⟨r"bad", 4, 0⟩
      (by unfold Inv StructInv; decide) (by decide) rfl (by decide) (by decide)
      (by decide) (by decide) (by decide),
    c4_max_retries_tombstone.2 (freshTracker 900 60 (-1) [r"a"] 0) 0 1 (by decide)⟩

end Dispatcher
